import Mathlib

/-!
Verification of the FlightPlans repository.

This development shallowly embeds the two core components of the repository:

* `tp_database.py` — the turnpoint coordinate index (`TurnpointDatabase`):
  name/landscape normalisation, loading a directory of parsed .fpl files with
  first-write-wins merging, and exact-then-fuzzy resolution.  The fuzzy step
  calls the Python standard library `difflib.get_close_matches`; that library
  function is embedded here as well (sequence-matcher matching blocks, ratio,
  and best-candidate selection), minus the `autojunk` heuristic which only
  affects query strings of 200 or more characters.

* `condor_fpl_gen.py` — the `build_fpl` serializer: default substitution for
  optional task fields, synthesis of the launch-airfield turnpoint, the full
  ordered line output, penalties, and the random seed.

Modelling conventions:
* Python strings are `List Char`; `str.lower` is modelled by `Char.toLower`
  (they agree on ASCII, which is what the corpus uses), `str.split()` by
  splitting on `Char.isWhitespace` runs.
* Python dicts are association lists with insertion-order semantics: lookup
  finds the (unique) key, assignment replaces in place or appends at the end.
* A dict field that may be missing or explicitly null is `Option (Option α)`:
  `none` is "key absent", `some none` is "key present, value None".
* Python floats are embedded as `Rat`; none of the verified claims depend on
  float rounding or on the decimal rendering of coordinates.
* Fallible code returns `Option`: `none` marks a raised exception.
-/

/-- Python strings as lists of characters. -/
abbrev Str := List Char

/-- Default character used for out-of-range indexed reads (never reached on
the in-range reads the Python code performs). -/
def defCh : Char := ' '

/-! ### Name normalisation (`tp_database._norm_name`, `_norm_landscape`) -/

/-- Auxiliary for Python `str.split()`: split on whitespace runs, dropping
empty pieces; `acc` holds the current word reversed. -/
def pySplitGo : Str → Str → List Str
  | [], acc => if acc = [] then [] else [acc.reverse]
  | c :: cs, acc =>
    if c.isWhitespace then
      if acc = [] then pySplitGo cs [] else acc.reverse :: pySplitGo cs []
    else pySplitGo cs (c :: acc)

/-- Python `s.split()` (no argument): split on whitespace runs. -/
def pySplit (s : Str) : List Str := pySplitGo s []

/-- Python `" ".join(words)`. -/
def joinWords : List Str → Str
  | [] => []
  | [w] => w
  | w :: ws => w ++ ' ' :: joinWords ws

/-- `_norm_name`: lowercase and collapse whitespace. -/
def normName (s : Str) : Str := joinWords (pySplit (s.map Char.toLower))

/-- `_norm_landscape`: lowercase, then remove underscores and spaces. -/
def normLandscape (s : Str) : Str :=
  (s.map Char.toLower).filter (fun c => !(c = '_' || c = ' '))

/-! ### difflib model: SequenceMatcher matching blocks and ratio

`get_close_matches(word, possibilities, n=1, cutoff=0.75)` filters the
possibilities whose `SequenceMatcher(None, x, word).ratio()` is at least the
cutoff (the two quick ratios it also tests are documented upper bounds of
`ratio`, so they do not change the filtered set) and returns the best scored
candidate, ties on the score broken by the larger string.  `ratio` is
`2*M/T` where `M` is the total size of the matching blocks found by the
recursive longest-matching-block decomposition and `T` the total length. -/

/-- Positions (ascending, starting at `base`) at which character `c` occurs;
this is difflib's `b2j` information for one character. -/
def positions (c : Char) : List Char → Nat → List Nat
  | [], _ => []
  | x :: xs, n => if x = c then n :: positions c xs (n + 1) else positions c xs (n + 1)

/-- Lookup in the `j2len` row map with Python's `dict.get(j, 0)` default. -/
def lookupD (m : List (Nat × Nat)) (j : Nat) : Nat :=
  match m with
  | [] => 0
  | (k, v) :: rest => if k = j then v else lookupD rest j

/-- The `j` values scanned in one row of `find_longest_match`: the occurrences
of `a[i]` in `b`, restricted to the window `[blo, bhi)`. -/
def rowJs (a b : Str) (blo bhi i : Nat) : List Nat :=
  (positions (a.getD i defCh) b 0).filter (fun j => decide (blo ≤ j) && decide (j < bhi))

/-- Inner loop of one `find_longest_match` row: fold over the `j` positions,
building the new `j2len` map and updating the best block.  `prev` is the
previous row's map; the best triple is `(besti, bestj, bestsize)`. -/
def flmRowJs (prev : List (Nat × Nat)) (i : Nat) :
    List Nat → List (Nat × Nat) × (Nat × Nat × Nat) → List (Nat × Nat) × (Nat × Nat × Nat)
  | [], st => st
  | j :: js, (nw, (bi, bj, bs)) =>
    let k := (if j = 0 then 0 else lookupD prev (j - 1)) + 1
    flmRowJs prev i js
      ((j, k) :: nw, if bs < k then (i + 1 - k, j + 1 - k, k) else (bi, bj, bs))

/-- Outer loop of `find_longest_match`: one step per row `i` of the window. -/
def flmRows (a b : Str) (blo bhi : Nat) :
    List Nat → List (Nat × Nat) → Nat × Nat × Nat → Nat × Nat × Nat
  | [], _, best => best
  | i :: is, prev, best =>
    match flmRowJs prev i (rowJs a b blo bhi i) ([], best) with
    | (nw, best2) => flmRows a b blo bhi is nw best2

/-- The left extension loop of `find_longest_match` (no junk, so there is a
single extension pass); fuel-driven, the fuel is an upper bound on `besti`. -/
def extendL (a b : Str) (alo blo : Nat) : Nat → Nat × Nat × Nat → Nat × Nat × Nat
  | 0, best => best
  | fuel + 1, (bi, bj, bs) =>
    if alo < bi ∧ blo < bj ∧ a.getD (bi - 1) defCh = b.getD (bj - 1) defCh then
      extendL a b alo blo fuel (bi - 1, bj - 1, bs + 1)
    else (bi, bj, bs)

/-- The right extension loop of `find_longest_match`. -/
def extendR (a b : Str) (ahi bhi : Nat) : Nat → Nat × Nat × Nat → Nat × Nat × Nat
  | 0, best => best
  | fuel + 1, (bi, bj, bs) =>
    if bi + bs < ahi ∧ bj + bs < bhi ∧ a.getD (bi + bs) defCh = b.getD (bj + bs) defCh then
      extendR a b ahi bhi fuel (bi, bj, bs + 1)
    else (bi, bj, bs)

/-- `SequenceMatcher.find_longest_match` on the window
`a[alo:ahi]` / `b[blo:bhi]`, without the autojunk heuristic. -/
def flmCore (a b : Str) (alo ahi blo bhi : Nat) : Nat × Nat × Nat :=
  extendR a b ahi bhi (a.length + 1)
    (extendL a b alo blo (a.length + 1)
      (flmRows a b blo bhi (List.range' alo (ahi - alo)) [] (alo, blo, 0)))

/-- Total size of the matching blocks of `get_matching_blocks`, computed by
the same divide-and-conquer recursion (fuel-driven; the window height shrinks
strictly at every recursive call, so `a.length + 1` fuel always suffices). -/
def matchesAux (a b : Str) : Nat → Nat → Nat → Nat → Nat → Nat
  | 0, _, _, _, _ => 0
  | fuel + 1, alo, ahi, blo, bhi =>
    match flmCore a b alo ahi blo bhi with
    | (i, j, k) =>
      if k = 0 then 0
      else k + matchesAux a b fuel alo i blo j + matchesAux a b fuel (i + k) ahi (j + k) bhi

/-- Total matched size over the whole strings (the `M` of `ratio`). -/
def smMatches (a b : Str) : Nat :=
  matchesAux a b (a.length + b.length + 1) 0 a.length 0 b.length

/-- `SequenceMatcher(None, a, b).ratio() = 2*M/T`, as an exact rational
(the float comparison against the 0.75 cutoff coincides with the exact
rational comparison for all string lengths arising here). -/
def smScore (a b : Str) : Rat :=
  if a.length + b.length = 0 then 1
  else (2 * (smMatches a b : Rat)) / ((a.length : Rat) + (b.length : Rat))

/-- Python string strict comparison (lexicographic on code points; the
`Char` order compares scalar values). -/
def strLtB : Str → Str → Bool
  | [], [] => false
  | [], _ :: _ => true
  | _ :: _, [] => false
  | a :: as, b :: bs =>
    if a < b then true
    else if b < a then false
    else strLtB as bs

/-- Python string comparison `<=`. -/
def strLeB (s t : Str) : Bool := strLtB s t || s == t

/-- Strict comparison on `(score, string)` pairs, as Python compares the
`(ratio, candidate)` tuples inside `heapq.nlargest`. -/
def pairGtB (p q : Rat × Str) : Bool :=
  (decide (q.1 < p.1)) || (q.1 == p.1 && strLtB q.2 p.2)

/-- `heapq.nlargest(1, scored)` head: the maximum scored pair (first-wins on
exact ties, which cannot arise here since dict keys are distinct). -/
def bestScored (l : List (Rat × Str)) : Option (Rat × Str) :=
  l.foldl
    (fun acc p =>
      match acc with
      | none => some p
      | some q => if pairGtB p q then some p else some q)
    none

/-- `difflib.get_close_matches(word, possibilities, n=1, cutoff)`, returning
the single best match if any possibility scores at least the cutoff. -/
def getCloseMatches1 (word : Str) (poss : List Str) (cutoff : Rat) : Option Str :=
  (bestScored
    (poss.filterMap (fun x =>
      if cutoff ≤ smScore x word then some (smScore x word, x) else none))).map
    Prod.snd

/-! ### The turnpoint database (`TurnpointDatabase`) -/

/-- A stored index entry: `(canonical_name, x, y, z)`. -/
abbrev Entry := Str × Rat × Rat × Rat

/-- One landscape bucket: insertion-ordered map from normalised name to entry. -/
abbrev Bucket := List (Str × Entry)

/-- The database: insertion-ordered map from normalised landscape to bucket. -/
abbrev Db := List (Str × Bucket)

/-- Python dict lookup on an insertion-ordered association list. -/
def lookupA {β : Type} (k : Str) : List (Str × β) → Option β
  | [] => none
  | (k1, v) :: rest => if k = k1 then some v else lookupA k rest

/-- Python dict assignment: replace the value in place if the key exists,
otherwise append the binding at the end. -/
def setA {β : Type} (k : Str) (v : β) : List (Str × β) → List (Str × β)
  | [] => [(k, v)]
  | (k1, w) :: rest => if k = k1 then (k1, v) :: rest else (k1, w) :: setA k v rest

/-- Two-level lookup `self._db[lk][nk]`. -/
def lookup2 (db : Db) (lk nk : Str) : Option Entry :=
  (lookupA lk db).bind (fun bucket => lookupA nk bucket)

/-- A parsed turnpoint from a .fpl file: name and coordinates. -/
structure Tp where
  name : Str
  x : Rat
  y : Rat
  z : Rat
deriving DecidableEq

/-- The entry stored for a turnpoint: `(tp["name"], tp["x"], tp["y"], tp["z"])`. -/
def tpEntry (tp : Tp) : Entry := (tp.name, tp.x, tp.y, tp.z)

/-- One file of the corpus directory, with the result of `_parse_fpl` on its
content: `landscape = none` models a parse failure (unreadable file or no
Landscape line); an empty landscape string is also skipped by the loader
(Python truthiness of the empty string). -/
structure DirFile where
  name : Str
  landscape : Option Str
  tps : List Tp
deriving DecidableEq

/-- `fname.lower().endswith(".fpl")`. -/
def endsWithFpl (s : Str) : Bool :=
  List.isSuffixOf (('.' :: 'f' :: 'p' :: 'l' :: [])) (s.map Char.toLower)

/-- The body of the per-turnpoint loop of `load_fpl_dir`: insert the
turnpoint into the (existing) bucket `lk` unless its normalised name is
already bound; count newly added entries. -/
def insertTp (lk : Str) (st : Db × Nat) (tp : Tp) : Db × Nat :=
  match lookupA lk st.1 with
  | none => st
  | some bucket =>
    let nk := normName tp.name
    if (lookupA nk bucket).isSome then st
    else (setA lk (bucket ++ [(nk, tpEntry tp)]) st.1, st.2 + 1)

/-- Processing of one directory entry inside `load_fpl_dir`'s loop:
extension filter, landscape presence/truthiness check, bucket creation,
then the turnpoint insertion loop. -/
def loadFile (st : Db × Nat) (f : DirFile) : Db × Nat :=
  if endsWithFpl f.name = false then st
  else
    match f.landscape with
    | none => st
    | some l =>
      if l = [] then st
      else
        let lk := normLandscape l
        let db1 := if (lookupA lk st.1).isSome then st.1 else setA lk [] st.1
        f.tps.foldl (insertTp lk) (db1, st.2)

/-- Insertion into a name-sorted file list (model of Python `sorted`, which
is pinned down uniquely by the pairwise-distinct filenames of a directory). -/
def insertByName (f : DirFile) : List DirFile → List DirFile
  | [] => [f]
  | g :: gs => if strLeB f.name g.name then f :: g :: gs else g :: insertByName f gs

/-- `sorted(os.listdir(directory))`, by filename. -/
def sortByName : List DirFile → List DirFile
  | [] => []
  | f :: fs => insertByName f (sortByName fs)

/-- `TurnpointDatabase.load_fpl_dir`: `none` models a non-existent directory
(`os.path.isdir` false → return 0, database untouched); otherwise process the
files in sorted filename order.  Returns the new database and the number of
newly added turnpoints. -/
def load_fpl_dir (db : Db) (dir : Option (List DirFile)) : Db × Nat :=
  match dir with
  | none => (db, 0)
  | some files => (sortByName files).foldl loadFile (db, 0)

/-- `TurnpointDatabase.resolve`, parameterised by the fuzzy matcher so that
exactness of the first branch can be stated for every fuzzy strategy. -/
def resolveWith (fz : Str → List Str → Option Str) (db : Db) (landscape nm : Str) :
    Option (Rat × Rat × Rat) :=
  match lookupA (normLandscape landscape) db with
  | none => none
  | some bucket =>
    let nk := normName nm
    match lookupA nk bucket with
    | some e => some e.2
    | none =>
      match fz nk (bucket.map Prod.fst) with
      | none => none
      | some hit =>
        match lookupA hit bucket with
        | some e => some e.2
        | none => none

/-- `TurnpointDatabase.resolve` with the difflib fuzzy matcher at cutoff 0.75. -/
def resolve (db : Db) (landscape nm : Str) : Option (Rat × Rat × Rat) :=
  resolveWith (fun nk cands => getCloseMatches1 nk cands ((3 : Rat) / 4)) db landscape nm

/-! ### The FPL builder (`condor_fpl_gen.build_fpl`)

The task dict is embedded as a structure; a field that the Python code reads
with `dict.get`, and that upstream producers may leave absent or store as
null, has type `Option (Option α)` (`none` = absent, `some none` = null).
Fields the code indexes directly (`task["turnpoints"]`, the coordinates of a
turnpoint dict) are plain, and fields whose null value is not exercised by
any claim (weather, penalties, per-turnpoint sector fields) use a single
`Option` for absence. -/

/-- A task turnpoint dict (the shape produced by the pdf pipeline, the
interactive mode and the task JSON): mandatory name/x/y/z, optional sector
fields read with `tp.get(key, default)`. -/
structure RawTp where
  name : Str
  x : Rat
  y : Rat
  z : Rat
  sector_type : Option Int := none
  sector_dir : Option Int := none
  radius_m : Option Int := none
  angle_deg : Option Int := none
deriving DecidableEq

/-- The weather sub-dict (`task.get("weather", {})`). -/
structure Weather where
  wind_dir_deg : Option Int := none
  wind_speed_kts : Option Int := none
  cloud_base_ft : Option Int := none
  overdevelopment : Option Rat := none
  thermal_strength : Option Int := none
  thermal_activity : Option Int := none
deriving DecidableEq

/-- The penalties sub-dict (`task.get("penalties", {})`). -/
structure PenaltySet where
  cloud_flying : Option Int := none
  plane_recovery : Option Int := none
  height_recovery : Option Int := none
  airspace : Option Int := none
deriving DecidableEq

/-- A calendar date, the parse of an ISO `YYYY-MM-DD` string (the embedding
works with the already-parsed triple; `date.fromisoformat` validation is out
of scope of the claims). -/
structure PyDate where
  year : Int
  month : Nat
  day : Nat
deriving DecidableEq

/-- The task dict as read by `build_fpl`. -/
structure TaskRec where
  condor_version : Option (Option Int) := none
  skin : Option (Option Str) := none
  start_type : Option (Option Str) := none
  task_date : Option (Option PyDate) := none
  start_time : Option (Option Int) := none
  start_height_m : Option (Option Int) := none
  start_time_window : Option (Option Int) := none
  race_start_delay_mins : Option (Option Int) := none
  max_start_speed_kts : Option (Option Int) := none
  landscape : Option (Option Str) := none
  aircraft : Option (Option Str) := none
  description : Option (Option Str) := none
  airport_tp : Option RawTp := none
  turnpoints : List RawTp := []
  weather : Option Weather := none
  penalties : Option PenaltySet := none
  ignore_airspace : Bool := false
deriving DecidableEq

/-- `task.get(key, default)`: the default is used only when the key is
absent; an explicitly stored None comes back as the value `none`. -/
def getD {α : Type} (f : Option (Option α)) (d : α) : Option α :=
  match f with
  | none => some d
  | some none => none
  | some (some v) => some v

/-- `task.get(key) or default`: the default is used when the key is absent,
stored as None, or stored as a falsy value. -/
def orD {α : Type} (falsy : α → Bool) (f : Option (Option α)) (d : α) : α :=
  match f with
  | none => d
  | some none => d
  | some (some v) => if falsy v then d else v

/-- Falsy test for Python ints (0 is falsy). -/
def intFalsy (n : Int) : Bool := n == 0

/-- Render an `int` the way a Python f-string does. -/
def showIntS (n : Int) : Str := (toString n).toList

/-- Render a `Nat` (list indices, the seed) the way Python `str` does. -/
def showNatS (n : Nat) : Str := (toString n).toList

/-- Render a value that may be Python None: `f"...={v}"` prints `None`. -/
def showOptIntS : Option Int → Str
  | none => ('N' :: 'o' :: 'n' :: 'e' :: [])
  | some v => showIntS v

/-- Render a possibly-None string value. -/
def showOptStrS : Option Str → Str
  | none => ('N' :: 'o' :: 'n' :: 'e' :: [])
  | some s => s

/-- Decimal digits of a natural number (fuel-driven helper). -/
def natDigits : Nat → Nat → Str
  | 0, _ => []
  | _ + 1, n =>
    if n = 0 then []
    else natDigits n (n / 10) ++ [Char.ofNat (48 + n % 10)]

/-- Render a nonnegative integer in decimal ("0" for zero). -/
def showNatDigits (n : Nat) : Str := if n = 0 then ('0' :: []) else natDigits (n + 1) n

/-- Python `round` (banker's rounding, halves to even), on the embedded
rationals.  The float results agree for the magnitudes this program handles;
no claim depends on the tie cases. -/
def pyRound (q : Rat) : Int :=
  let f : Int := q.floor
  let r : Rat := q - (f : Rat)
  if r < (1 : Rat) / 2 then f
  else if (1 : Rat) / 2 < r then f + 1
  else if f % 2 = 0 then f else f + 1

/-- Fixed-point rendering with `places` fractional digits, modelling the
f-string format specifiers `:.6f` / `:.17f` (up to double rounding, on which
no claim depends). -/
def showFixed (places : Nat) (q : Rat) : Str :=
  let scaled : Int := pyRound (q * ((10 : Rat) ^ places))
  let sign : Str := if scaled < 0 then ('-' :: []) else []
  let mag : Nat := scaled.natAbs
  let ip : Nat := mag / 10 ^ places
  let fp : Nat := mag % 10 ^ places
  let fdigits : Str := natDigits (fp + 1) fp
  sign ++ showNatDigits ip ++ '.' :: (List.replicate (places - fdigits.length) '0' ++ fdigits)

/-- Render an embedded float value (`f"{x}"` on a Python float); coordinates
and weather values only — no claim depends on the digits. -/
def showVal (q : Rat) : Str := (toString q).toList

/-- `KTS_TO_MS` conversion factor. -/
def ktsToMsQ : Rat := 514444 / 1000000

/-- `KTS_TO_KMH` conversion factor. -/
def ktsToKmhQ : Rat := 1852 / 1000

/-- `FT_TO_M` conversion factor. -/
def ftToMQ : Rat := 3048 / 10000

/-- Days from the civil epoch 1970-01-01 (standard civil-from-days formula),
used to embed Python `datetime.date` subtraction. -/
def daysFromCivil (y : Int) (m d : Nat) : Int :=
  let y2 : Int := if m ≤ 2 then y - 1 else y
  let era : Int := (if 0 ≤ y2 then y2 else y2 - 399) / 400
  let yoe : Int := y2 - era * 400
  let mp : Int := ((m : Int) + 9) % 12
  let doy : Int := (153 * mp + 2) / 5 + (d : Int) - 1
  let doe : Int := yoe * 365 + yoe / 4 - yoe / 100 + doy
  era * 146097 + doe - 719468

/-- `date_to_excel`: days between the task date and 1899-12-30. -/
def dateToExcel (d : PyDate) : Int :=
  daysFromCivil d.year d.month d.day - daysFromCivil 1899 12 30

/-- `start_type_code`: map the start-type string to the Condor integer code
(gate 0, line 1, airborne/tow 2, anything else 2). -/
def startTypeCode (s : Str) : Int :=
  let l := s.map Char.toLower
  if l = ('g' :: 'a' :: 't' :: 'e' :: []) then 0
  else if l = ('l' :: 'i' :: 'n' :: 'e' :: []) then 1
  else 2

/-- The default task date `2026-06-21`. -/
def defaultDate : PyDate := { year := 2026, month := 6, day := 21 }

/-- The completed TP0..TPn records of `full_tps`: every field the emission
loop reads is present (the airport literal sets them all; the cloned task
turnpoints carry their optional sector fields). -/
structure FullTp where
  name : Str
  x : Rat
  y : Rat
  z : Rat
  is_airport : Bool
  sector_type : Option Int
  sector_dir : Option Int
  radius_m : Option Int
  angle_deg : Option Int
deriving DecidableEq

/-- `dict(tp)` for a task turnpoint: a copy, with no `is_airport` key. -/
def toFullTp (tp : RawTp) : FullTp :=
  { name := tp.name, x := tp.x, y := tp.y, z := tp.z, is_airport := false,
    sector_type := tp.sector_type, sector_dir := tp.sector_dir,
    radius_m := tp.radius_m, angle_deg := tp.angle_deg }

/-- The source of the airport turnpoint: the explicit `airport_tp` dict, or
(legacy) the first task turnpoint; `none` models the IndexError raised when
both are missing. -/
def aptSource (t : TaskRec) : Option RawTp :=
  match t.airport_tp with
  | some a => some a
  | none => t.turnpoints.head?

/-- The synthesized airport turnpoint literal: name/x/y/z copied from the
source, fixed wide sector (radius 3000, angle 90), `is_airport` true. -/
def mkAirport (a : RawTp) : FullTp :=
  { name := a.name, x := a.x, y := a.y, z := a.z, is_airport := true,
    sector_type := some 0, sector_dir := some 0,
    radius_m := some 3000, angle_deg := some 90 }

/-- `full_tps = [airport_tp] + [dict(tp) for tp in tps_in]`. -/
def fullTps (t : TaskRec) : Option (List FullTp) :=
  (aptSource t).map (fun a => mkAirport a :: t.turnpoints.map toFullTp)

/-- The 13 lines emitted for turnpoint `i` by the `for i, tp in
enumerate(full_tps)` loop. -/
def tpBlock (i : Nat) (tp : FullTp) : List Str :=
  [("TPName").toList ++ showNatS i ++ '=' :: tp.name,
   ("TPPosX").toList ++ showNatS i ++ '=' :: showVal tp.x,
   ("TPPosY").toList ++ showNatS i ++ '=' :: showVal tp.y,
   ("TPPosZ").toList ++ showNatS i ++ '=' :: showVal tp.z,
   ("TPAirport").toList ++ showNatS i ++ '=' :: (if tp.is_airport then ('1' :: []) else ('0' :: [])),
   ("TPSectorType").toList ++ showNatS i ++ '=' :: showIntS (tp.sector_type.getD 0),
   ("TPSectorDirection").toList ++ showNatS i ++ '=' :: showIntS (tp.sector_dir.getD 0),
   ("TPRadius").toList ++ showNatS i ++ '=' :: showIntS (tp.radius_m.getD 3000),
   ("TPAngle").toList ++ showNatS i ++ '=' :: showIntS (tp.angle_deg.getD 180),
   ("TPAltitude").toList ++ showNatS i ++ ("=1500").toList,
   ("TPWidth").toList ++ showNatS i ++ ("=0").toList,
   ("TPHeight").toList ++ showNatS i ++ ("=10000").toList,
   ("TPAzimuth").toList ++ showNatS i ++ ("=0").toList]

/-- The emission loop over the enumerated `full_tps`. -/
def tpBlocks : Nat → List FullTp → List Str
  | _, [] => []
  | i, tp :: rest => tpBlock i tp ++ tpBlocks (i + 1) rest

/-- The `[Version]` section. -/
def versionLines (t : TaskRec) : List Str :=
  [("[Version]").toList,
   ("Condor version=").toList ++ showOptIntS (getD t.condor_version 3100),
   []]

/-- The `[Task]` section: landscape, count, the turnpoint blocks, and the
fixed trailing lines. -/
def taskLines (t : TaskRec) (tps : List FullTp) : List Str :=
  [("[Task]").toList,
   ("Landscape=").toList ++ showOptStrS (getD t.landscape (("Centro_Italia3").toList)),
   ("Count=").toList ++ showNatS tps.length] ++
  tpBlocks 0 tps ++
  [("PZCount=0").toList, ("DisabledAirspaces=").toList, []]

/-- The effective weather dict (`task.get("weather", {})`). -/
def effWx (t : TaskRec) : Weather := t.weather.getD {}

/-- The `[Weather]` / `[WeatherZone0]` sections. -/
def weatherLines (t : TaskRec) : List Str :=
  let wx := effWx t
  let windDir := wx.wind_dir_deg.getD 0
  let windSpeedMs : Rat := ((wx.wind_speed_kts.getD 0 : Int) : Rat) * ktsToMsQ
  let inversionM : Int := pyRound (((wx.cloud_base_ft.getD 4921 : Int) : Rat) * ftToMQ)
  let overdevelop : Rat := wx.overdevelopment.getD 0
  let thStrength := wx.thermal_strength.getD 2
  let thActivity := wx.thermal_activity.getD 3
  [("[Weather]").toList,
   ("RandomizeWeatherOnEachFlight=0").toList,
   ("WZCount=1").toList,
   [],
   ("[WeatherZone0]").toList,
   ("Name=Base").toList,
   ("PointCount=0").toList,
   ("MoveDir=0").toList,
   ("MoveSpeed=0").toList,
   ("BorderWidth=0").toList,
   ("WindDir=").toList ++ showIntS windDir,
   ("WindSpeed=").toList ++ showFixed 6 windSpeedMs,
   ("WindUpperSpeed=0").toList,
   ("WindDirVariation=1").toList,
   ("WindSpeedVariation=1").toList,
   ("WindTurbulence=2").toList,
   ("ThermalsTemp=22").toList,
   ("ThermalsTempVariation=1").toList,
   ("ThermalsDew=10").toList,
   ("ThermalsStrength=").toList ++ showIntS thStrength,
   ("ThermalsStrengthVariation=1").toList,
   ("ThermalsInversionheight=").toList ++ showIntS inversionM,
   ("ThermalsOverdevelopment=").toList ++ showVal overdevelop,
   ("ThermalsWidth=2").toList,
   ("ThermalsWidthVariation=1").toList,
   ("ThermalsActivity=").toList ++ showIntS thActivity,
   ("ThermalsActivityVariation=1").toList,
   ("ThermalsTurbulence=2").toList,
   ("ThermalsFlatsActivity=2").toList,
   ("ThermalsStreeting=0").toList,
   ("ThermalsBugs=2").toList,
   ("WavesStability=5").toList,
   ("WavesMoisture=8").toList,
   ("HighCloudsCoverage=2").toList,
   []]

/-- The `[Plane]` section. -/
def planeLines (t : TaskRec) : List Str :=
  [("[Plane]").toList,
   ("Class=All").toList,
   ("Name=").toList ++ showOptStrS (getD t.aircraft (("StdCirrus").toList)),
   ("Skin=").toList ++ showOptStrS (getD t.skin (("Default").toList)),
   ("Water=0").toList,
   ("FixedMass=0").toList,
   ("CGBias=0").toList,
   ("Seat=1").toList,
   ("Bugwipers=0").toList,
   []]

/-- The effective penalties dict (`task.get("penalties", {})`). -/
def effPen (t : TaskRec) : PenaltySet := t.penalties.getD {}

/-- The airspace-entrance penalty: forced to 0 by the `_ignore_airspace`
flag, otherwise the configured value with default 100. -/
def airspacePenalty (t : TaskRec) : Int :=
  if t.ignore_airspace then 0 else (effPen t).airspace.getD 100

/-- The `[GameOptions]` lines strictly before the RandSeed line (in source
order). -/
def gameLinesPre (t : TaskRec) : List Str :=
  let taskDateSerial := dateToExcel (orD (fun _ => false) t.task_date defaultDate)
  let startTime := orD intFalsy t.start_time 12
  let stwHours : Rat := ((orD intFalsy t.start_time_window 0 : Int) : Rat) / 60
  let delayHours : Rat := ((orD intFalsy t.race_start_delay_mins 5 : Int) : Rat) / 60
  let maxSpeedKmh : Int := pyRound (((orD intFalsy t.max_start_speed_kts 81 : Int) : Rat) * ktsToKmhQ)
  let pen := effPen t
  [("[GameOptions]").toList,
   ("TaskDate=").toList ++ showIntS taskDateSerial,
   ("StartTime=").toList ++ showIntS startTime,
   ("StartTimeWindow=").toList ++ showFixed 17 stwHours,
   ("RaceStartDelay=").toList ++ showFixed 17 delayHours,
   ("AATTime=3").toList,
   ("IconsVisibleRange=20").toList,
   ("ThermalHelpersRange=0").toList,
   ("TurnpointHelpersRange=0").toList,
   ("AAT=0").toList,
   ("AllowBugwipers=1").toList,
   ("AllowPDA=1").toList,
   ("AllowRealtimeScoring=1").toList,
   ("AllowExternalView=1").toList,
   ("AllowPadlockView=1").toList,
   ("AllowSmoke=1").toList,
   ("AllowPlaneRecovery=0").toList,
   ("AllowHeightRecovery=0").toList,
   ("AllowMidairCollisionRecovery=0").toList,
   ("AllowInstructorActions=0").toList,
   ("PenaltyCloudFlying=").toList ++ showIntS (pen.cloud_flying.getD 100),
   ("PenaltyPlaneRecovery=").toList ++ showIntS (pen.plane_recovery.getD 100),
   ("PenaltyHeightRecovery=").toList ++ showIntS (pen.height_recovery.getD 100),
   ("PenaltyWrongWindowEnterance=100").toList,
   ("PenaltyWindowCollision=100").toList,
   ("PenaltyAirspaceEnterance=").toList ++ showIntS (airspacePenalty t),
   ("PenaltyPenaltyZoneEnterance=100").toList,
   ("PenaltyThermalHelpers=0").toList,
   ("MaxStartGroundSpeed=").toList ++ showIntS maxSpeedKmh,
   ("PenaltyStartSpeed=1").toList,
   ("PenaltyHighStart=1").toList,
   ("PenaltyLowFinish=1").toList]

/-- The `[GameOptions]` lines strictly after the RandSeed line. -/
def gameLinesPost (t : TaskRec) (st_name : Str) : List Str :=
  [("StartType=").toList ++ showIntS (startTypeCode st_name),
   ("StartHeight=").toList ++ showIntS (orD intFalsy t.start_height_m 1000),
   ("BreakProb=0").toList,
   ("RopeLength=50").toList,
   ("MaxWingLoading=0").toList,
   ("MaxTeams=0").toList,
   ("AcroFlight=0").toList,
   []]

/-- The upper bound passed to `random.randint(0, 2147483647)`. -/
def randSeedBound : Nat := 2147483647

/-- `random.randint(0, 2147483647)` applied to one draw of entropy: a value
in the inclusive range `0 .. 2147483647`. -/
def randintM (entropy : Nat) : Nat := entropy % (randSeedBound + 1)

/-- The RandSeed line. -/
def randSeedLine (entropy : Nat) : Str :=
  ("RandSeed=").toList ++ showNatS (randintM entropy)

/-- The whole `[GameOptions]` section in source order. -/
def gameOptionsLines (t : TaskRec) (st_name : Str) (entropy : Nat) : List Str :=
  gameLinesPre t ++ randSeedLine entropy :: gameLinesPost t st_name

/-- The `[Description]` section. -/
def descLines (t : TaskRec) : List Str :=
  [("[Description]").toList,
   ("Text=").toList ++ showOptStrS (getD t.description []),
   []]

/-- `build_fpl`: the full list of output lines (joined with CRLF by the
caller).  `none` models a raised exception: the IndexError when there is no
airport source and no turnpoint, or the AttributeError when `start_type` is
stored as null (`None.lower()`). -/
def build_fpl (t : TaskRec) (entropy : Nat) : Option (List Str) := do
  let apt ← aptSource t
  let st_name ← getD t.start_type (("airborne").toList)
  let full := mkAirport apt :: t.turnpoints.map toFullTp
  some (versionLines t ++ taskLines t full ++ weatherLines t ++ planeLines t ++
    gameOptionsLines t st_name entropy ++ descLines t)

/-- CRLF join (`"\r\n".join(lines)`). -/
def joinCRLF : List Str → Str
  | [] => []
  | [l] => l
  | l :: ls => l ++ '\r' :: '\n' :: joinCRLF ls

/-- The serialized file content: lines joined with CRLF. -/
def build_fpl_text (t : TaskRec) (entropy : Nat) : Option Str :=
  (build_fpl t entropy).map joinCRLF

/-! ### Heap model of the builder's dict and list operations

`build_fpl` receives mutable Python objects (the task dict and its nested
dicts and lists).  To state that it never mutates its input we replay, on an
explicit heap of objects, every dict/list operation the function performs:
reads of `task[...]` / `.get(...)`, the `dict(...)` copies of the airport
source and of each task turnpoint, the airport literal, the `full_tps` list
literal, and the fresh `{}` defaults for absent weather/penalties.  All of
these are reads or allocations of new cells: the function body contains no
store into an existing object, which the frame theorem below makes precise. -/

/-- A Python value stored inside an object: immediates or a reference. -/
inductive PyVal where
  | num (q : Rat)
  | str (s : Str)
  | boolean (b : Bool)
  | nil
  | ref (r : Nat)
deriving DecidableEq

/-- A heap object: a dict or a list. -/
inductive PyObj where
  | dict (fields : List (Str × PyVal))
  | list (items : List PyVal)
deriving DecidableEq

/-- The heap: objects addressed by index; allocation appends. -/
abbrev Heap := List PyObj

/-- Allocate a fresh object, returning the new heap and the reference. -/
def heapAlloc (h : Heap) (o : PyObj) : Heap × Nat := (h ++ [o], h.length)

/-- Fields of a dict object (defaulting for ill-typed reads, which the real
code turns into exceptions; either way the heap is untouched). -/
def dictFields : PyObj → List (Str × PyVal)
  | .dict fs => fs
  | .list _ => []

/-- Items of a list object. -/
def listItems : PyObj → List PyVal
  | .list its => its
  | .dict _ => []

/-- The reference carried by a value. -/
def valRef : PyVal → Nat
  | .ref r => r
  | _ => 0

/-- Read the fields of the dict at reference `r`. -/
def derefDict (h : Heap) (r : Nat) : List (Str × PyVal) :=
  dictFields (h.getD r (.dict []))

/-- Read the items of the list at reference `r`. -/
def derefList (h : Heap) (r : Nat) : List PyVal :=
  listItems (h.getD r (.dict []))

/-- The `[dict(tp) for tp in tps_in]` comprehension: allocate a shallow copy
of every turnpoint dict, in order. -/
def allocCopies (h : Heap) : List PyVal → Heap × List PyVal
  | [] => (h, [])
  | v :: vs =>
    let h1 := h ++ [PyObj.dict (derefDict h (valRef v))]
    let rest := allocCopies h1 vs
    (rest.1, .ref h.length :: rest.2)

/-- Every heap operation `build_fpl` performs, in source order, starting
from the task dict at `taskRef`; returns the final heap and the reference of
the freshly built `full_tps` list. -/
def buildFplHeapOps (h : Heap) (taskRef : Nat) : Heap × Nat :=
  let task := derefDict h taskRef
  let tpsIn := derefList h (valRef ((lookupA (("turnpoints").toList) task).getD (.ref 0)))
  let srcRef : Nat :=
    match lookupA (("airport_tp").toList) task with
    | some v => valRef v
    | none => valRef (tpsIn.getD 0 (.ref 0))
  let h1 := h ++ [PyObj.dict (derefDict h srcRef)]
  let aptRaw := derefDict h1 h.length
  let fieldOf : Str → PyVal := fun k => (lookupA k aptRaw).getD .nil
  let h2 := h1 ++ [PyObj.dict
    [(("name").toList, fieldOf (("name").toList)),
     (("x").toList, fieldOf (("x").toList)),
     (("y").toList, fieldOf (("y").toList)),
     (("z").toList, fieldOf (("z").toList)),
     (("is_airport").toList, .boolean true),
     (("radius_m").toList, .num 3000),
     (("angle_deg").toList, .num 90),
     (("sector_type").toList, .num 0),
     (("sector_dir").toList, .num 0)]]
  let airportRef := h1.length
  let pr := allocCopies h2 tpsIn
  let h4 := pr.1 ++ [PyObj.list (.ref airportRef :: pr.2)]
  let fullRef := pr.1.length
  let h5 :=
    match lookupA (("weather").toList) task with
    | some _ => h4
    | none => h4 ++ [PyObj.dict []]
  let h6 :=
    match lookupA (("penalties").toList) task with
    | some _ => h5
    | none => h5 ++ [PyObj.dict []]
  (h6, fullRef)

/-- Boolean prefix test on embedded strings (used to state which output
lines carry a given key). -/
def strStarts : Str → Str → Bool
  | [], _ => true
  | _ :: _, [] => false
  | p :: ps, c :: cs => if p = c then strStarts ps cs else false

/-- Concrete heap for the C10 witness: a task dict referencing a turnpoint
list, one turnpoint dict, and weather/penalties dicts. -/
def exHeap : Heap :=
  [PyObj.dict
    [(("turnpoints").toList, .ref 1),
     (("weather").toList, .ref 3),
     (("penalties").toList, .ref 4),
     (("start_height_m").toList, .num 0)],
   PyObj.list [.ref 2],
   PyObj.dict
    [(("name").toList, .str (("Rieti").toList)),
     (("x").toList, .num 183917), (("y").toList, .num 229719), (("z").toList, .num 389)],
   PyObj.dict [(("wind_dir_deg").toList, .num 90)],
   PyObj.dict [(("airspace").toList, .num 100)]]

/-- Concrete bucket for the C1 witness: besides the exact key, it stores a
second name that would clear the 0.75 fuzzy threshold for the query. -/
def exBucket : Bucket :=
  [(("rieti").toList, (("Rieti").toList, 183917, 229719, 389)),
   (("rietti").toList, (("Rietti").toList, 1, 2, 3))]

/-- Concrete database for the C1 witness. -/
def exDb : Db := [(("centroitalia3").toList, exBucket)]

/-- First task turnpoint for the C3 witness, with its own (overridden)
sector: radius 500, angle 45. -/
def exTpA : RawTp :=
  { name := ("A").toList, x := 0, y := 0, z := 100,
    sector_type := some 0, sector_dir := some 0,
    radius_m := some 500, angle_deg := some 45 }

/-- Second task turnpoint for the C3 witness. -/
def exTpB : RawTp := { name := ("B").toList, x := 1000, y := 0, z := 0 }

/-- Concrete task for the C3 witness: two turnpoints, no explicit airport. -/
def exTask3 : TaskRec := { turnpoints := [exTpA, exTpB] }

/-- Concrete task for the C7 witness: ignore-airspace flag set and a
configured airspace penalty of 55 (which must be overridden to 0). -/
def exTask7a : TaskRec :=
  { turnpoints := [exTpA, exTpB], ignore_airspace := true,
    penalties := some { airspace := some 55 } }

/-- Concrete task for the C7 witness: no flag, no configured penalties. -/
def exTask7b : TaskRec := { turnpoints := [exTpA, exTpB] }

/-- Concrete task for the C2 counterexample: start height explicitly 0. -/
def exTask2h : TaskRec := { turnpoints := [exTpA, exTpB], start_height_m := some (some 0) }

/-- Concrete task for the C2 counterexample: version explicitly null. -/
def exTask2v : TaskRec := { turnpoints := [exTpA, exTpB], condor_version := some none }

/-- A directory entry that `load_fpl_dir` actually processes: .fpl
extension, a parsed landscape line, non-empty after strip. -/
def validF (f : DirFile) : Prop :=
  endsWithFpl f.name = true ∧ ∃ l, f.landscape = some l ∧ l ≠ []

/-- A file defines the key (lk, nk) if it is processed and one of its
turnpoints has normalised name nk under normalised landscape lk. -/
def fileDefines (f : DirFile) (lk nk : Str) : Prop :=
  endsWithFpl f.name = true ∧
    ∃ l, f.landscape = some l ∧ l ≠ [] ∧ normLandscape l = lk ∧
      nk ∈ f.tps.map (fun tp => normName tp.name)

/-- The entry a file contributes for normalised name nk: its first turnpoint
with that normalised name. -/
def fileEntry (f : DirFile) (nk : Str) : Option Entry :=
  (f.tps.find? (fun tp => normName tp.name == nk)).map tpEntry

/-- First corpus file for the C5/C9 witnesses: defines Rieti at (1,2,3). -/
def exFile1 : DirFile :=
  { name := ("a.fpl").toList, landscape := some (("Centro_Italia3").toList),
    tps := [{ name := ("Rieti").toList, x := 1, y := 2, z := 3 }] }

/-- Second corpus file: defines the same normalised key with different
coordinates (9,9,9) under an equivalent landscape spelling. -/
def exFile2 : DirFile :=
  { name := ("b.fpl").toList, landscape := some (("Centro Italia 3").toList),
    tps := [{ name := ("RIETI").toList, x := 9, y := 9, z := 9 }] }

/-- The two-file corpus directory of the C5/C9 witnesses. -/
def exDir5 : List DirFile := [exFile1, exFile2]

/-- The `j2len.get(j-1, 0) + 1` suffix-length computation of one
`find_longest_match` row step (reading the previous row's map). -/
def kfun (prev : List (Nat × Nat)) (j : Nat) : Nat :=
  (if j = 0 then 0 else lookupD prev (j - 1)) + 1

/-! ## Lemmas -/

/-- The copy comprehension only appends fresh cells to the heap. -/
lemma allocCopies_extends : ∀ (vs : List PyVal) (h : Heap), ∃ ext, (allocCopies h vs).1 = h ++ ext := by
  intro vs
  induction vs with
  | nil => intro h; exact ⟨[], by simp [allocCopies]⟩
  | cons v vs ih =>
    intro h
    obtain ⟨ext, hext⟩ := ih (h ++ [PyObj.dict (derefDict h (valRef v))])
    refine ⟨PyObj.dict (derefDict h (valRef v)) :: ext, ?_⟩
    simp only [allocCopies]
    rw [hext]
    simp

/-- Composition step: a heap that extends `h2` by copies and a literal tail
extends any `h` that `h2` extends. -/
lemma heapExt_alloc_tail (h h2 : Heap) (tps : List PyVal) (tail : Heap)
    (hh2 : ∃ e, h2 = h ++ e) : ∃ e, (allocCopies h2 tps).1 ++ tail = h ++ e := by
  obtain ⟨e1, rfl⟩ := hh2
  obtain ⟨e2, he2⟩ := allocCopies_extends tps (h ++ e1)
  exact ⟨e1 ++ e2 ++ tail, by rw [he2]; simp⟩

/-- The builder's heap operations only append fresh cells to the heap. -/
lemma buildFplHeapOps_extends (h : Heap) (taskRef : Nat) :
    ∃ ext, (buildFplHeapOps h taskRef).1 = h ++ ext := by
  unfold buildFplHeapOps
  simp only
  cases hw : lookupA (("weather").toList) (derefDict h taskRef) <;>
    cases hp : lookupA (("penalties").toList) (derefDict h taskRef) <;>
    simp only [hw, hp, List.append_assoc] <;>
    exact heapExt_alloc_tail h _ _ _ ⟨_, rfl⟩

/-- Exact normalised lookup wins for any fuzzy strategy (helper shared by the
resolver claims). -/
lemma resolveWith_exact (fz : Str → List Str → Option Str) (db : Db) (L N : Str)
    (bucket : Bucket) (e : Entry)
    (hb : lookupA (normLandscape L) db = some bucket)
    (he : lookupA (normName N) bucket = some e) :
    resolveWith fz db L N = some e.2 := by
  unfold resolveWith
  rw [hb]
  simp only [he]

/-! ## Claim theorems -/

/-- Claim C10: `build_fpl` never mutates its input.  Replaying every
dict/list operation the builder performs on an explicit heap of Python
objects, every object that existed before the call holds exactly the values
it held before: the builder only reads, and allocates fresh copies and
literals. -/
theorem build_fpl_no_mutation (h : Heap) (taskRef : Nat) (i : Nat) (hi : i < h.length) :
    ((buildFplHeapOps h taskRef).1)[i]? = h[i]? := by
  obtain ⟨ext, hext⟩ := buildFplHeapOps_extends h taskRef
  rw [hext, List.getElem?_append_left hi]

/-- Witness for C10 at a concrete heap: the task dict (cell 0) and the
turnpoint dict (cell 2) are untouched by the builder's heap operations. -/
theorem build_fpl_no_mutation_witness :
    (0 < exHeap.length ∧ 2 < exHeap.length) ∧
      ((buildFplHeapOps exHeap 0).1)[0]? = exHeap[0]? ∧
      ((buildFplHeapOps exHeap 0).1)[2]? = exHeap[2]? :=
  ⟨⟨by decide, by decide⟩,
   build_fpl_no_mutation exHeap 0 0 (by decide),
   build_fpl_no_mutation exHeap 0 2 (by decide)⟩

/-- Claim C1: if the index's bucket for the normalised landscape binds the
normalised requested name, `resolve` returns exactly that entry's (x, y, z);
the fuzzy matcher is never consulted, which the second conjunct states as:
the same result holds for every fuzzy matching strategy, in particular when
other stored names would also clear the similarity threshold. -/
theorem resolve_exact_priority (db : Db) (L N : Str) (bucket : Bucket) (e : Entry)
    (hb : lookupA (normLandscape L) db = some bucket)
    (he : lookupA (normName N) bucket = some e) :
    resolve db L N = some e.2 ∧
      ∀ fz : Str → List Str → Option Str, resolveWith fz db L N = some e.2 :=
  ⟨resolveWith_exact _ db L N bucket e hb he,
   fun fz => resolveWith_exact fz db L N bucket e hb he⟩

/-- Witness for C1: requesting RIETI (case-different) in Centro_Italia3
returns the exactly-matched entry's coordinates, not the fuzzy candidate's. -/
theorem resolve_exact_priority_witness :
    resolve exDb (("Centro_Italia3").toList) (("RIETI").toList) =
      some (183917, 229719, 389) :=
  (resolve_exact_priority exDb (("Centro_Italia3").toList) (("RIETI").toList) exBucket
    ((("Rieti").toList, (183917 : Rat), (229719 : Rat), (389 : Rat)))
    (by decide) (by decide)).1

/-- Claim C3: the synthesized entry 0 of the turnpoint list copies name/x/y/z
from the explicit airport_tp when present, else from the first task
turnpoint, and in both cases its sector is forced to radius 3000 / angle 90
(and it is flagged as the airport), regardless of the source's own sector
fields; at the output level the corresponding TPName0/TPRadius0/TPAngle0
lines appear. -/
theorem airport_entry_synthesis (t : TaskRec) (entropy : Nat) :
    (∀ tp0 rest, t.turnpoints = tp0 :: rest → t.airport_tp = none →
       ∃ l0 lrest, fullTps t = some (l0 :: lrest) ∧
         l0.name = tp0.name ∧ l0.x = tp0.x ∧ l0.y = tp0.y ∧ l0.z = tp0.z ∧
         l0.radius_m = some 3000 ∧ l0.angle_deg = some 90 ∧ l0.is_airport = true) ∧
    (∀ a, t.airport_tp = some a →
       ∃ l0 lrest, fullTps t = some (l0 :: lrest) ∧
         l0.name = a.name ∧ l0.x = a.x ∧ l0.y = a.y ∧ l0.z = a.z ∧
         l0.radius_m = some 3000 ∧ l0.angle_deg = some 90 ∧ l0.is_airport = true) ∧
    (∀ tp0 rest lines, t.turnpoints = tp0 :: rest → t.airport_tp = none →
       build_fpl t entropy = some lines →
       (("TPName0=").toList ++ tp0.name) ∈ lines ∧
       (("TPRadius0=3000").toList) ∈ lines ∧
       (("TPAngle0=90").toList) ∈ lines) := by
  refine ⟨?_, ?_, ?_⟩
  · intro tp0 rest htps hapt
    refine ⟨mkAirport tp0, (tp0 :: rest).map toFullTp, ?_, rfl, rfl, rfl, rfl, rfl, rfl, rfl⟩
    simp [fullTps, aptSource, hapt, htps]
  · intro a hapt
    refine ⟨mkAirport a, t.turnpoints.map toFullTp, ?_, rfl, rfl, rfl, rfl, rfl, rfl, rfl⟩
    simp [fullTps, aptSource, hapt]
  · intro tp0 rest lines htps hapt hb
    rcases hst : getD t.start_type (("airborne").toList) with _ | st_name
    · rw [build_fpl, hst] at hb
      simp [aptSource, hapt, htps] at hb
    · rw [build_fpl, hst] at hb
      simp only [aptSource, hapt, htps, List.head?, Option.some_bind] at hb
      have hlines : lines =
          versionLines t ++ taskLines t (mkAirport tp0 :: (tp0 :: rest).map toFullTp) ++
          weatherLines t ++ planeLines t ++ gameOptionsLines t st_name entropy ++
          descLines t := by
        cases hb
        rfl
      subst hlines
      have e1 : (("TPName0=").toList ++ tp0.name) =
          (("TPName").toList ++ showNatS 0 ++ '=' :: (mkAirport tp0).name) := rfl
      have e2 : (("TPRadius0=3000").toList) =
          (("TPRadius").toList ++ showNatS 0 ++ '=' :: showIntS ((mkAirport tp0).radius_m.getD 3000)) := rfl
      have e3 : (("TPAngle0=90").toList) =
          (("TPAngle").toList ++ showNatS 0 ++ '=' :: showIntS ((mkAirport tp0).angle_deg.getD 180)) := rfl
      refine ⟨?_, ?_, ?_⟩
      · rw [e1]; simp [taskLines, tpBlocks, tpBlock]
      · rw [e2]; simp [taskLines, tpBlocks, tpBlock]
      · rw [e3]; simp [taskLines, tpBlocks, tpBlock]

/-- Witness for C3: with no explicit airport, entry 0 clones A's name but its
sector is forced to 3000/90 (A's own 500/45 notwithstanding), and the forced
lines appear in the built output. -/
theorem airport_entry_synthesis_witness :
    ∃ l0 lrest lines, fullTps exTask3 = some (l0 :: lrest) ∧
      l0.name = exTpA.name ∧ l0.x = exTpA.x ∧
      l0.radius_m = some 3000 ∧ l0.angle_deg = some 90 ∧
      build_fpl exTask3 0 = some lines ∧
      (("TPName0=A").toList) ∈ lines ∧ (("TPRadius0=3000").toList) ∈ lines ∧
      (("TPAngle0=90").toList) ∈ lines := by
  obtain ⟨l0, lrest, h1, hn, hx, hy, hz, hr, ha, hap⟩ :=
    (airport_entry_synthesis exTask3 0).1 exTpA [exTpB] rfl rfl
  have hb : ∃ lines, build_fpl exTask3 0 = some lines := ⟨_, rfl⟩
  obtain ⟨lines, hlines⟩ := hb
  obtain ⟨hm1, hm2, hm3⟩ :=
    (airport_entry_synthesis exTask3 0).2.2 exTpA [exTpB] lines rfl rfl hlines
  exact ⟨l0, lrest, lines, h1, hn, hx, hr, ha, hlines, hm1, hm2, hm3⟩

/-- Successful builds decompose into the six sections with the synthesized
airport prepended to the cloned task turnpoints (helper shared by the
serializer claims). -/
lemma build_fpl_decomp (t : TaskRec) (entropy : Nat) (lines : List Str)
    (hb : build_fpl t entropy = some lines) :
    ∃ apt st_name, aptSource t = some apt ∧
      getD t.start_type (("airborne").toList) = some st_name ∧
      lines = versionLines t ++
        taskLines t (mkAirport apt :: t.turnpoints.map toFullTp) ++
        weatherLines t ++ planeLines t ++
        gameOptionsLines t st_name entropy ++ descLines t := by
  rcases ha : aptSource t with _ | apt
  · rw [build_fpl, ha] at hb
    simp at hb
  · rcases hst : getD t.start_type (("airborne").toList) with _ | st
    · rw [build_fpl, ha, hst] at hb
      simp at hb
    · rw [build_fpl, ha, hst] at hb
      simp only [Option.bind_eq_bind, Option.some_bind, Option.some.injEq] at hb
      exact ⟨apt, st, rfl, rfl, hb.symm⟩

/-- The turnpoint blocks carry no airspace-penalty line. -/
lemma tpBlocks_filter_air : ∀ (i : Nat) (ts : List FullTp),
    (tpBlocks i ts).filter (strStarts (("PenaltyAirspaceEnterance=").toList)) = [] := by
  intro i ts
  induction ts generalizing i with
  | nil => rfl
  | cons tp rest ih =>
    simp only [tpBlocks, List.filter_append, ih, List.append_nil]
    rfl

/-- The turnpoint blocks carry no cloud-flying-penalty line. -/
lemma tpBlocks_filter_cf : ∀ (i : Nat) (ts : List FullTp),
    (tpBlocks i ts).filter (strStarts (("PenaltyCloudFlying=").toList)) = [] := by
  intro i ts
  induction ts generalizing i with
  | nil => rfl
  | cons tp rest ih =>
    simp only [tpBlocks, List.filter_append, ih, List.append_nil]
    rfl

/-- The turnpoint blocks carry no plane-recovery-penalty line. -/
lemma tpBlocks_filter_pr : ∀ (i : Nat) (ts : List FullTp),
    (tpBlocks i ts).filter (strStarts (("PenaltyPlaneRecovery=").toList)) = [] := by
  intro i ts
  induction ts generalizing i with
  | nil => rfl
  | cons tp rest ih =>
    simp only [tpBlocks, List.filter_append, ih, List.append_nil]
    rfl

/-- The turnpoint blocks carry no height-recovery-penalty line. -/
lemma tpBlocks_filter_hr : ∀ (i : Nat) (ts : List FullTp),
    (tpBlocks i ts).filter (strStarts (("PenaltyHeightRecovery=").toList)) = [] := by
  intro i ts
  induction ts generalizing i with
  | nil => rfl
  | cons tp rest ih =>
    simp only [tpBlocks, List.filter_append, ih, List.append_nil]
    rfl

/-- The unique airspace-penalty line of a built output. -/
lemma lines_filter_air (t : TaskRec) (st : Str) (e : Nat) (tps : List FullTp) :
    ((versionLines t ++ taskLines t tps ++ weatherLines t ++ planeLines t ++
      gameOptionsLines t st e ++ descLines t).filter
        (strStarts (("PenaltyAirspaceEnterance=").toList))) =
      [("PenaltyAirspaceEnterance=").toList ++ showIntS (airspacePenalty t)] := by
  simp only [List.filter_append, taskLines, tpBlocks_filter_air]
  rfl

/-- The unique cloud-flying-penalty line of a built output. -/
lemma lines_filter_cf (t : TaskRec) (st : Str) (e : Nat) (tps : List FullTp) :
    ((versionLines t ++ taskLines t tps ++ weatherLines t ++ planeLines t ++
      gameOptionsLines t st e ++ descLines t).filter
        (strStarts (("PenaltyCloudFlying=").toList))) =
      [("PenaltyCloudFlying=").toList ++ showIntS ((effPen t).cloud_flying.getD 100)] := by
  simp only [List.filter_append, taskLines, tpBlocks_filter_cf]
  rfl

/-- The unique plane-recovery-penalty line of a built output. -/
lemma lines_filter_pr (t : TaskRec) (st : Str) (e : Nat) (tps : List FullTp) :
    ((versionLines t ++ taskLines t tps ++ weatherLines t ++ planeLines t ++
      gameOptionsLines t st e ++ descLines t).filter
        (strStarts (("PenaltyPlaneRecovery=").toList))) =
      [("PenaltyPlaneRecovery=").toList ++ showIntS ((effPen t).plane_recovery.getD 100)] := by
  simp only [List.filter_append, taskLines, tpBlocks_filter_pr]
  rfl

/-- The unique height-recovery-penalty line of a built output. -/
lemma lines_filter_hr (t : TaskRec) (st : Str) (e : Nat) (tps : List FullTp) :
    ((versionLines t ++ taskLines t tps ++ weatherLines t ++ planeLines t ++
      gameOptionsLines t st e ++ descLines t).filter
        (strStarts (("PenaltyHeightRecovery=").toList))) =
      [("PenaltyHeightRecovery=").toList ++ showIntS ((effPen t).height_recovery.getD 100)] := by
  simp only [List.filter_append, taskLines, tpBlocks_filter_hr]
  rfl

/-- Claim C7: in the serialized output the airspace-entrance penalty line is
0 whenever the ignore-airspace flag is set, regardless of any configured
value; 100 when the flag is unset and no airspace penalty is configured; and
the cloud-flying / plane-recovery / height-recovery penalty lines each
default to 100 when unset. -/
theorem penalty_defaults (t : TaskRec) (entropy : Nat) (lines : List Str)
    (hb : build_fpl t entropy = some lines) :
    (t.ignore_airspace = true →
      lines.filter (strStarts (("PenaltyAirspaceEnterance=").toList)) =
        [("PenaltyAirspaceEnterance=0").toList]) ∧
    (t.ignore_airspace = false → (effPen t).airspace = none →
      lines.filter (strStarts (("PenaltyAirspaceEnterance=").toList)) =
        [("PenaltyAirspaceEnterance=100").toList]) ∧
    ((effPen t).cloud_flying = none →
      lines.filter (strStarts (("PenaltyCloudFlying=").toList)) =
        [("PenaltyCloudFlying=100").toList]) ∧
    ((effPen t).plane_recovery = none →
      lines.filter (strStarts (("PenaltyPlaneRecovery=").toList)) =
        [("PenaltyPlaneRecovery=100").toList]) ∧
    ((effPen t).height_recovery = none →
      lines.filter (strStarts (("PenaltyHeightRecovery=").toList)) =
        [("PenaltyHeightRecovery=100").toList]) := by
  obtain ⟨apt, st, ha, hst, rfl⟩ := build_fpl_decomp t entropy lines hb
  refine ⟨?_, ?_, ?_, ?_, ?_⟩
  · intro hflag
    rw [lines_filter_air]
    simp only [airspacePenalty, hflag, if_true]
    rfl
  · intro hflag hpen
    rw [lines_filter_air]
    simp only [airspacePenalty, hflag, hpen, Bool.false_eq_true, if_false, Option.getD_none]
    rfl
  · intro hpen
    rw [lines_filter_cf]
    simp only [hpen, Option.getD_none]
    rfl
  · intro hpen
    rw [lines_filter_pr]
    simp only [hpen, Option.getD_none]
    rfl
  · intro hpen
    rw [lines_filter_hr]
    simp only [hpen, Option.getD_none]
    rfl

/-- Witness for C7 at two concrete tasks: with the flag set a configured
penalty of 55 still yields 0; with everything unset the four penalties are
100. -/
theorem penalty_defaults_witness :
    ∃ la lb, build_fpl exTask7a 0 = some la ∧ build_fpl exTask7b 0 = some lb ∧
      la.filter (strStarts (("PenaltyAirspaceEnterance=").toList)) =
        [("PenaltyAirspaceEnterance=0").toList] ∧
      lb.filter (strStarts (("PenaltyAirspaceEnterance=").toList)) =
        [("PenaltyAirspaceEnterance=100").toList] ∧
      lb.filter (strStarts (("PenaltyCloudFlying=").toList)) =
        [("PenaltyCloudFlying=100").toList] ∧
      lb.filter (strStarts (("PenaltyPlaneRecovery=").toList)) =
        [("PenaltyPlaneRecovery=100").toList] ∧
      lb.filter (strStarts (("PenaltyHeightRecovery=").toList)) =
        [("PenaltyHeightRecovery=100").toList] := by
  have ha : ∃ l, build_fpl exTask7a 0 = some l := ⟨_, rfl⟩
  have hb : ∃ l, build_fpl exTask7b 0 = some l := ⟨_, rfl⟩
  obtain ⟨la, hla⟩ := ha
  obtain ⟨lb, hlb⟩ := hb
  refine ⟨la, lb, hla, hlb, (penalty_defaults exTask7a 0 la hla).1 rfl, ?_, ?_, ?_, ?_⟩
  · exact (penalty_defaults exTask7b 0 lb hlb).2.1 rfl rfl
  · exact (penalty_defaults exTask7b 0 lb hlb).2.2.1 rfl
  · exact (penalty_defaults exTask7b 0 lb hlb).2.2.2.1 rfl
  · exact (penalty_defaults exTask7b 0 lb hlb).2.2.2.2 rfl

/-- The turnpoint blocks carry no line starting with `C` (so no Count line). -/
lemma tpBlocks_filter_c (ps : Str) : ∀ (i : Nat) (ts : List FullTp),
    (tpBlocks i ts).filter (strStarts ('C' :: ps)) = [] := by
  intro i ts
  induction ts generalizing i with
  | nil => rfl
  | cons tp rest ih =>
    simp only [tpBlocks, List.filter_append, ih, List.append_nil]
    rfl

/-- No line of the version section starts with `TP`. -/
lemma filter_tp_version (t : TaskRec) (ps : Str) :
    (versionLines t).filter (strStarts ('T' :: 'P' :: ps)) = [] := rfl

/-- No line of the weather section starts with `TP`. -/
lemma filter_tp_weather (t : TaskRec) (ps : Str) :
    (weatherLines t).filter (strStarts ('T' :: 'P' :: ps)) = [] := rfl

/-- No line of the plane section starts with `TP`. -/
lemma filter_tp_plane (t : TaskRec) (ps : Str) :
    (planeLines t).filter (strStarts ('T' :: 'P' :: ps)) = [] := rfl

/-- No line of the game-options section starts with `TP`. -/
lemma filter_tp_game (t : TaskRec) (st : Str) (e : Nat) (ps : Str) :
    (gameOptionsLines t st e).filter (strStarts ('T' :: 'P' :: ps)) = [] := rfl

/-- No line of the description section starts with `TP`. -/
lemma filter_tp_desc (t : TaskRec) (ps : Str) :
    (descLines t).filter (strStarts ('T' :: 'P' :: ps)) = [] := rfl

/-- No line of the task-section header starts with `TP`. -/
lemma filter_tp_taskhead (x y : Str) (ps : Str) :
    ([("[Task]").toList, ("Landscape=").toList ++ x, ("Count=").toList ++ y]).filter
      (strStarts ('T' :: 'P' :: ps)) = [] := rfl

/-- No line of the task-section trailer starts with `TP`. -/
lemma filter_tp_tasktail (ps : Str) :
    ([("PZCount=0").toList, ("DisabledAirspaces=").toList, ([] : Str)]).filter
      (strStarts ('T' :: 'P' :: ps)) = [] := rfl

/-- Filtering a built output on a `TP`-prefix reduces to the turnpoint
blocks: no other section emits such lines. -/
lemma lines_filter_tp (t : TaskRec) (st : Str) (e : Nat) (tps : List FullTp) (ps : Str) :
    ((versionLines t ++ taskLines t tps ++ weatherLines t ++ planeLines t ++
      gameOptionsLines t st e ++ descLines t).filter (strStarts ('T' :: 'P' :: ps))) =
      (tpBlocks 0 tps).filter (strStarts ('T' :: 'P' :: ps)) := by
  simp only [List.filter_append, taskLines, filter_tp_version, filter_tp_weather,
    filter_tp_plane, filter_tp_game, filter_tp_desc, filter_tp_taskhead, filter_tp_tasktail,
    List.append_nil, List.nil_append]

/-- Each turnpoint block contributes exactly one TPName line. -/
lemma tpBlocks_count_name : ∀ (i : Nat) (ts : List FullTp),
    ((tpBlocks i ts).filter (strStarts ('T' :: 'P' :: ("Name").toList))).length = ts.length := by
  intro i ts
  induction ts generalizing i with
  | nil => rfl
  | cons tp rest ih =>
    have h1 : (tpBlock i tp).filter (strStarts ('T' :: 'P' :: ("Name").toList)) =
        [("TPName").toList ++ showNatS i ++ '=' :: tp.name] := rfl
    simp only [tpBlocks, List.filter_append, List.length_append, h1, ih,
      List.length_cons, List.length_nil]
    omega

/-- Each turnpoint block contributes exactly one TPPosX line. -/
lemma tpBlocks_count_posx : ∀ (i : Nat) (ts : List FullTp),
    ((tpBlocks i ts).filter (strStarts ('T' :: 'P' :: ("PosX").toList))).length = ts.length := by
  intro i ts
  induction ts generalizing i with
  | nil => rfl
  | cons tp rest ih =>
    have h1 : (tpBlock i tp).filter (strStarts ('T' :: 'P' :: ("PosX").toList)) =
        [("TPPosX").toList ++ showNatS i ++ '=' :: showVal tp.x] := rfl
    simp only [tpBlocks, List.filter_append, List.length_append, h1, ih,
      List.length_cons, List.length_nil]
    omega

/-- Each turnpoint block contributes exactly one TPPosY line. -/
lemma tpBlocks_count_posy : ∀ (i : Nat) (ts : List FullTp),
    ((tpBlocks i ts).filter (strStarts ('T' :: 'P' :: ("PosY").toList))).length = ts.length := by
  intro i ts
  induction ts generalizing i with
  | nil => rfl
  | cons tp rest ih =>
    have h1 : (tpBlock i tp).filter (strStarts ('T' :: 'P' :: ("PosY").toList)) =
        [("TPPosY").toList ++ showNatS i ++ '=' :: showVal tp.y] := rfl
    simp only [tpBlocks, List.filter_append, List.length_append, h1, ih,
      List.length_cons, List.length_nil]
    omega

/-- Each turnpoint block contributes exactly one TPPosZ line. -/
lemma tpBlocks_count_posz : ∀ (i : Nat) (ts : List FullTp),
    ((tpBlocks i ts).filter (strStarts ('T' :: 'P' :: ("PosZ").toList))).length = ts.length := by
  intro i ts
  induction ts generalizing i with
  | nil => rfl
  | cons tp rest ih =>
    have h1 : (tpBlock i tp).filter (strStarts ('T' :: 'P' :: ("PosZ").toList)) =
        [("TPPosZ").toList ++ showNatS i ++ '=' :: showVal tp.z] := rfl
    simp only [tpBlocks, List.filter_append, List.length_append, h1, ih,
      List.length_cons, List.length_nil]
    omega

/-- Each turnpoint block contributes exactly one TPAirport line. -/
lemma tpBlocks_count_airport : ∀ (i : Nat) (ts : List FullTp),
    ((tpBlocks i ts).filter (strStarts ('T' :: 'P' :: ("Airport").toList))).length = ts.length := by
  intro i ts
  induction ts generalizing i with
  | nil => rfl
  | cons tp rest ih =>
    have h1 : (tpBlock i tp).filter (strStarts ('T' :: 'P' :: ("Airport").toList)) =
        [("TPAirport").toList ++ showNatS i ++ '=' ::
          (if tp.is_airport then ('1' :: []) else ('0' :: []))] := rfl
    simp only [tpBlocks, List.filter_append, List.length_append, h1, ih,
      List.length_cons, List.length_nil]
    omega

/-- The TPAirport flag line of the turnpoint at offset `i` appears in the
blocks enumerated from `base`. -/
lemma tpBlocks_flag_mem : ∀ (ts : List FullTp) (base i : Nat) (h : i < ts.length),
    (("TPAirport").toList ++ showNatS (base + i) ++ '=' ::
      (if (ts.get ⟨i, h⟩).is_airport then ('1' :: []) else ('0' :: []))) ∈ tpBlocks base ts := by
  intro ts
  induction ts with
  | nil => intro base i h; exact absurd h (by simp)
  | cons tp rest ih =>
    intro base i h
    cases i with
    | zero =>
      simp only [Nat.add_zero, List.get]
      simp [tpBlocks, tpBlock]
    | succ i2 =>
      have h2 : i2 < rest.length := by simpa using h
      have := ih (base + 1) i2 h2
      simp only [tpBlocks, List.mem_append]
      right
      have harith : base + 1 + i2 = base + (i2 + 1) := by omega
      rw [harith] at this
      simpa using this

/-- The unique Count line of a built output. -/
lemma lines_filter_count (t : TaskRec) (st : Str) (e : Nat) (tps : List FullTp) :
    ((versionLines t ++ taskLines t tps ++ weatherLines t ++ planeLines t ++
      gameOptionsLines t st e ++ descLines t).filter (strStarts ('C' :: ("ount=").toList))) =
      [("Count=").toList ++ showNatS tps.length] := by
  simp only [List.filter_append, taskLines, tpBlocks_filter_c]
  rfl

/-- Cloned task turnpoints all carry flag 0: their TPAirport lines. -/
lemma tpBlocks_flag0_mem : ∀ (ts : List RawTp) (base i : Nat), i < ts.length →
    (("TPAirport").toList ++ showNatS (base + i) ++ ("=0").toList) ∈
      tpBlocks base (ts.map toFullTp) := by
  intro ts
  induction ts with
  | nil => intro base i h; exact absurd h (by simp)
  | cons tp rest ih =>
    intro base i h
    cases i with
    | zero =>
      have he : (("TPAirport").toList ++ showNatS (base + 0) ++ ("=0").toList) =
          (("TPAirport").toList ++ showNatS base ++ '=' ::
            (if (toFullTp tp).is_airport then ('1' :: []) else ('0' :: []))) := rfl
      rw [he]
      simp [tpBlocks, tpBlock]
    | succ i2 =>
      have h2 : i2 < rest.length := by simpa using h
      have hm := ih (base + 1) i2 h2
      have harith : base + 1 + i2 = base + (i2 + 1) := by omega
      rw [harith] at hm
      simp only [List.map_cons, tpBlocks, List.mem_append]
      right
      exact hm

/-- Claim C4: a successfully built output for a complete task with N task
turnpoints declares Count=N+1, contains exactly N+1 lines of each of
TPName/TPPosX/TPPosY/TPPosZ/TPAirport (for indices 0..N), and the TPAirport
flag is 1 at index 0 and 0 at every index 1..N. -/
theorem serialized_count_structure (t : TaskRec) (entropy : Nat) (lines : List Str) (N : Nat)
    (hb : build_fpl t entropy = some lines) (hN : t.turnpoints.length = N) (hN1 : 1 ≤ N) :
    lines.filter (strStarts (("Count=").toList)) = [("Count=").toList ++ showNatS (N + 1)] ∧
    (lines.filter (strStarts (("TPName").toList))).length = N + 1 ∧
    (lines.filter (strStarts (("TPPosX").toList))).length = N + 1 ∧
    (lines.filter (strStarts (("TPPosY").toList))).length = N + 1 ∧
    (lines.filter (strStarts (("TPPosZ").toList))).length = N + 1 ∧
    (lines.filter (strStarts (("TPAirport").toList))).length = N + 1 ∧
    (("TPAirport0=1").toList) ∈ lines ∧
    (∀ i, 1 ≤ i → i ≤ N →
      (("TPAirport").toList ++ showNatS i ++ ("=0").toList) ∈ lines) := by
  obtain ⟨apt, st, ha, hst, rfl⟩ := build_fpl_decomp t entropy lines hb
  have hfull : (mkAirport apt :: t.turnpoints.map toFullTp).length = N + 1 := by
    simp [hN]
  refine ⟨?_, ?_, ?_, ?_, ?_, ?_, ?_, ?_⟩
  · have hpfx : ("Count=").toList = 'C' :: ("ount=").toList := rfl
    rw [hpfx, lines_filter_count, hfull]
    rfl
  · have hpfx : ("TPName").toList = 'T' :: 'P' :: ("Name").toList := rfl
    rw [hpfx, lines_filter_tp, tpBlocks_count_name, hfull]
  · have hpfx : ("TPPosX").toList = 'T' :: 'P' :: ("PosX").toList := rfl
    rw [hpfx, lines_filter_tp, tpBlocks_count_posx, hfull]
  · have hpfx : ("TPPosY").toList = 'T' :: 'P' :: ("PosY").toList := rfl
    rw [hpfx, lines_filter_tp, tpBlocks_count_posy, hfull]
  · have hpfx : ("TPPosZ").toList = 'T' :: 'P' :: ("PosZ").toList := rfl
    rw [hpfx, lines_filter_tp, tpBlocks_count_posz, hfull]
  · have hpfx : ("TPAirport").toList = 'T' :: 'P' :: ("Airport").toList := rfl
    rw [hpfx, lines_filter_tp, tpBlocks_count_airport, hfull]
  · have hm : (("TPAirport0=1").toList) ∈
        tpBlocks 0 (mkAirport apt :: t.turnpoints.map toFullTp) := by
      have he : (("TPAirport0=1").toList) =
          (("TPAirport").toList ++ showNatS 0 ++ '=' ::
            (if (mkAirport apt).is_airport then ('1' :: []) else ('0' :: []))) := rfl
      rw [he]
      simp [tpBlocks, tpBlock]
    simp only [taskLines, List.mem_append]
    tauto
  · intro i h1 hiN
    have h2 : i - 1 < t.turnpoints.length := by omega
    have hm := tpBlocks_flag0_mem t.turnpoints 1 (i - 1) h2
    have harith : 1 + (i - 1) = i := by omega
    rw [harith] at hm
    have hm2 : (("TPAirport").toList ++ showNatS i ++ ("=0").toList) ∈
        tpBlocks 0 (mkAirport apt :: t.turnpoints.map toFullTp) := by
      simp only [tpBlocks, List.mem_append]
      right
      exact hm
    simp only [taskLines, List.mem_append]
    tauto

/-- Witness for C4 at the concrete two-turnpoint task: Count=3, three lines
per field kind, airport flag 1 at index 0 and 0 at index 2. -/
theorem serialized_count_structure_witness :
    ∃ lines, build_fpl exTask3 0 = some lines ∧
      lines.filter (strStarts (("Count=").toList)) = [("Count=").toList ++ showNatS 3] ∧
      (lines.filter (strStarts (("TPName").toList))).length = 3 ∧
      (lines.filter (strStarts (("TPAirport").toList))).length = 3 ∧
      (("TPAirport0=1").toList) ∈ lines ∧
      (("TPAirport").toList ++ showNatS 2 ++ ("=0").toList) ∈ lines := by
  have hb : ∃ l, build_fpl exTask3 0 = some l := ⟨_, rfl⟩
  obtain ⟨lines, hl⟩ := hb
  obtain ⟨hc, hn, _, _, _, hair, h01, hrest⟩ :=
    serialized_count_structure exTask3 0 lines 2 hl rfl (by omega)
  exact ⟨lines, hl, hc, hn, hair, h01, hrest 2 (by omega) (by omega)⟩

/-- Claim C8: serialization is deterministic except for the random seed.
Two builds of the same record share a seed-independent prefix and suffix and
differ only in the RandSeed line, whose drawn value lies in the inclusive
31-bit range 0..2147483647 on every run. -/
theorem build_deterministic_except_seed (t : TaskRec) (e1 e2 : Nat) (lines1 : List Str)
    (hb : build_fpl t e1 = some lines1) :
    ∃ pre post, lines1 = pre ++ randSeedLine e1 :: post ∧
      build_fpl t e2 = some (pre ++ randSeedLine e2 :: post) ∧
      randSeedLine e1 = ("RandSeed=").toList ++ showNatS (randintM e1) ∧
      randintM e1 ≤ randSeedBound ∧ randintM e2 ≤ randSeedBound := by
  obtain ⟨apt, st, ha, hst, rfl⟩ := build_fpl_decomp t e1 lines1 hb
  refine ⟨versionLines t ++ taskLines t (mkAirport apt :: t.turnpoints.map toFullTp) ++
      weatherLines t ++ planeLines t ++ gameLinesPre t,
    gameLinesPost t st ++ descLines t, ?_, ?_, rfl, ?_, ?_⟩
  · simp [gameOptionsLines, List.append_assoc]
  · rw [build_fpl, ha, hst]
    simp only [Option.bind_eq_bind, Option.some_bind, Option.some.injEq]
    simp [gameOptionsLines, List.append_assoc]
  · exact Nat.lt_succ_iff.mp (Nat.mod_lt _ (Nat.succ_pos _))
  · exact Nat.lt_succ_iff.mp (Nat.mod_lt _ (Nat.succ_pos _))

/-- Witness for C8: two concrete builds of the same task share prefix and
suffix around their RandSeed lines, and the drawn seed is in range. -/
theorem build_deterministic_except_seed_witness :
    ∃ pre post, build_fpl exTask3 5 = some (pre ++ randSeedLine 5 :: post) ∧
      build_fpl exTask3 7 = some (pre ++ randSeedLine 7 :: post) ∧
      randintM 5 ≤ randSeedBound := by
  have hb : ∃ l, build_fpl exTask3 5 = some l := ⟨_, rfl⟩
  obtain ⟨l1, hl1⟩ := hb
  obtain ⟨pre, post, heq, hb2, _, h5, _⟩ := build_deterministic_except_seed exTask3 5 7 l1 hl1
  refine ⟨pre, post, ?_, hb2, h5⟩
  rw [← heq]
  exact hl1

/-- Counterexample to Claim C2 as stated: a stored start height of 0 is not
kept as 0 — the `or`-based fallback turns it into the default 1000; and an
explicitly null version is not replaced by its documented default 3100 — it
is emitted literally as None. -/
theorem default_substitution_counterexample :
    ∃ la lb, build_fpl exTask2h 0 = some la ∧ build_fpl exTask2v 0 = some lb ∧
      (("StartHeight=1000").toList) ∈ la ∧ (("StartHeight=0").toList) ∉ la ∧
      (("Condor version=None").toList) ∈ lb ∧ (("Condor version=3100").toList) ∉ lb := by
  have hla : ∃ l, build_fpl exTask2h 0 = some l := ⟨_, rfl⟩
  have hlb : ∃ l, build_fpl exTask2v 0 = some l := ⟨_, rfl⟩
  obtain ⟨la, ha⟩ := hla
  obtain ⟨lb, hb⟩ := hlb
  refine ⟨la, lb, ha, hb, ?_, ?_, ?_, ?_⟩
  · have : build_fpl exTask2h 0 = some la := ha
    rw [show la = (build_fpl exTask2h 0).getD [] from by rw [ha]; rfl]
    decide
  · rw [show la = (build_fpl exTask2h 0).getD [] from by rw [ha]; rfl]
    decide
  · rw [show lb = (build_fpl exTask2v 0).getD [] from by rw [hb]; rfl]
    decide
  · rw [show lb = (build_fpl exTask2v 0).getD [] from by rw [hb]; rfl]
    decide

/-- Claim C2 (amended): the `or`-based fields — start time, start height,
start-time window, race-start delay, max start speed — fall back to their
documented defaults when the key is absent, explicitly null, or stored as
the falsy value 0 (so a stored start height of 0 yields 1000 in the output,
not 0).  Version, skin and start type are defaulted only on absence: an
explicitly null version or skin is emitted literally as None, and a null
start type is an error. -/
theorem default_substitution_amended (t : TaskRec) (e : Nat) :
    (build_fpl { t with condor_version := none } e =
      build_fpl { t with condor_version := some (some 3100) } e) ∧
    (build_fpl { t with skin := none } e =
      build_fpl { t with skin := some (some (("Default").toList)) } e) ∧
    (build_fpl { t with start_type := none } e =
      build_fpl { t with start_type := some (some (("airborne").toList)) } e) ∧
    (build_fpl { t with start_time := none } e =
      build_fpl { t with start_time := some (some 12) } e) ∧
    (build_fpl { t with start_time := some none } e =
      build_fpl { t with start_time := some (some 12) } e) ∧
    (build_fpl { t with start_time := some (some 0) } e =
      build_fpl { t with start_time := some (some 12) } e) ∧
    (build_fpl { t with start_height_m := none } e =
      build_fpl { t with start_height_m := some (some 1000) } e) ∧
    (build_fpl { t with start_height_m := some none } e =
      build_fpl { t with start_height_m := some (some 1000) } e) ∧
    (build_fpl { t with start_height_m := some (some 0) } e =
      build_fpl { t with start_height_m := some (some 1000) } e) ∧
    (build_fpl { t with start_time_window := none } e =
      build_fpl { t with start_time_window := some (some 0) } e) ∧
    (build_fpl { t with start_time_window := some none } e =
      build_fpl { t with start_time_window := some (some 0) } e) ∧
    (build_fpl { t with race_start_delay_mins := none } e =
      build_fpl { t with race_start_delay_mins := some (some 5) } e) ∧
    (build_fpl { t with race_start_delay_mins := some none } e =
      build_fpl { t with race_start_delay_mins := some (some 5) } e) ∧
    (build_fpl { t with race_start_delay_mins := some (some 0) } e =
      build_fpl { t with race_start_delay_mins := some (some 5) } e) ∧
    (build_fpl { t with max_start_speed_kts := none } e =
      build_fpl { t with max_start_speed_kts := some (some 81) } e) ∧
    (build_fpl { t with max_start_speed_kts := some none } e =
      build_fpl { t with max_start_speed_kts := some (some 81) } e) ∧
    (build_fpl { t with max_start_speed_kts := some (some 0) } e =
      build_fpl { t with max_start_speed_kts := some (some 81) } e) ∧
    (∀ lines, build_fpl { t with condor_version := some none } e = some lines →
      (("Condor version=None").toList) ∈ lines) ∧
    (∀ lines, build_fpl { t with skin := some none } e = some lines →
      (("Skin=None").toList) ∈ lines) ∧
    (build_fpl { t with start_type := some none } e = none) := by
  refine ⟨rfl, rfl, rfl, rfl, rfl, rfl, rfl, rfl, rfl, rfl, rfl, rfl, rfl, rfl, rfl, rfl,
    rfl, ?_, ?_, ?_⟩
  · intro lines hb
    obtain ⟨apt, st, ha, hst, rfl⟩ := build_fpl_decomp _ e lines hb
    have hv : (("Condor version=None").toList) ∈
        versionLines { t with condor_version := some none } := by
      have he : ("Condor version=None").toList =
          ("Condor version=").toList ++
            showOptIntS (getD ((some none) : Option (Option Int)) 3100) := rfl
      rw [he]
      simp [versionLines]
    simp only [List.mem_append]
    tauto
  · intro lines hb
    obtain ⟨apt, st, ha, hst, rfl⟩ := build_fpl_decomp _ e lines hb
    have hv : (("Skin=None").toList) ∈ planeLines { t with skin := some none } := by
      have he : ("Skin=None").toList =
          ("Skin=").toList ++ showOptStrS (getD ((some none) : Option (Option Str)) (("Default").toList)) := rfl
      rw [he]
      simp [planeLines]
    simp only [List.mem_append]
    tauto
  · rcases ha : aptSource { t with start_type := some none } with _ | apt
    · rw [build_fpl, ha]
      rfl
    · rw [build_fpl, ha]
      rfl

/-- Witness for the amended C2 at a concrete task: absent and zero start
height both produce the 1000-default output, a null version is emitted as
None, and a null start type is an error. -/
theorem default_substitution_amended_witness :
    (build_fpl { exTask3 with start_height_m := none } 0 =
      build_fpl { exTask3 with start_height_m := some (some 1000) } 0) ∧
    (build_fpl { exTask3 with start_height_m := some (some 0) } 0 =
      build_fpl { exTask3 with start_height_m := some (some 1000) } 0) ∧
    (∃ lines, build_fpl { exTask3 with condor_version := some none } 0 = some lines ∧
      (("Condor version=None").toList) ∈ lines) ∧
    (build_fpl { exTask3 with start_type := some none } 0 = none) := by
  obtain ⟨h1, h2, h3, h4, h5, h6, h7, h8, h9, h10, h11, h12, h13, h14, h15, h16, h17,
    h18, h19, h20⟩ := default_substitution_amended exTask3 0
  refine ⟨h7, h9, ?_, h20⟩
  have hb : ∃ l, build_fpl { exTask3 with condor_version := some none } 0 = some l := ⟨_, rfl⟩
  obtain ⟨l, hl⟩ := hb
  exact ⟨l, hl, h18 l hl⟩

/-! ### Association-list lemmas -/

/-- Assignment binds its key. -/
lemma lookupA_setA_self {β : Type} (k : Str) (v : β) :
    ∀ l : List (Str × β), lookupA k (setA k v l) = some v := by
  intro l
  induction l with
  | nil => simp [setA, lookupA]
  | cons p rest ih =>
    by_cases hk : k = p.1
    · simp [setA, hk, lookupA]
    · simp [setA, hk, lookupA, ih]

/-- Assignment leaves other keys unchanged. -/
lemma lookupA_setA_ne {β : Type} (k k2 : Str) (v : β) (hne : k2 ≠ k) :
    ∀ l : List (Str × β), lookupA k2 (setA k v l) = lookupA k2 l := by
  intro l
  induction l with
  | nil => simp [setA, lookupA, hne]
  | cons p rest ih =>
    by_cases hk : k = p.1
    · subst hk
      simp [setA, lookupA, hne, ih]
    · by_cases hk2 : k2 = p.1
      · simp [setA, lookupA, hk, hk2]
      · simp [setA, lookupA, hk, hk2, ih]

/-- Lookup distributes over append. -/
lemma lookupA_append {β : Type} (k : Str) :
    ∀ l1 l2 : List (Str × β), lookupA k (l1 ++ l2) =
      match lookupA k l1 with
      | some v => some v
      | none => lookupA k l2 := by
  intro l1 l2
  induction l1 with
  | nil => simp [lookupA]
  | cons p rest ih =>
    by_cases hk : k = p.1
    · simp [lookupA, hk]
    · simp [lookupA, hk, ih]

/-! ### First-write-wins load lemmas -/

/-- Inserting a turnpoint never overwrites an existing binding. -/
lemma insertTp_preserves (lk2 : Str) (st : Db × Nat) (tp : Tp) (lk nk : Str) (e : Entry)
    (h : lookup2 st.1 lk nk = some e) : lookup2 (insertTp lk2 st tp).1 lk nk = some e := by
  unfold insertTp
  cases hb : lookupA lk2 st.1 with
  | none => exact h
  | some bucket =>
    by_cases hk : (lookupA (normName tp.name) bucket).isSome
    · simp [hk, h]
    · simp only [hk, Bool.false_eq_true, if_false]
      by_cases hlk : lk = lk2
      · subst hlk
        unfold lookup2 at h ⊢
        rw [hb] at h
        rw [lookupA_setA_self]
        simp only [Option.some_bind] at h ⊢
        rw [lookupA_append, h]
      · unfold lookup2 at h ⊢
        rw [lookupA_setA_ne lk2 lk _ hlk]
        exact h

/-- Inserting a turnpoint with a different landscape key, or a different
normalised name, does not create the binding (lk, nk). -/
lemma insertTp_none_preserve (lk2 : Str) (st : Db × Nat) (tp : Tp) (lk nk : Str)
    (hcase : lk ≠ lk2 ∨ normName tp.name ≠ nk)
    (h : lookup2 st.1 lk nk = none) : lookup2 (insertTp lk2 st tp).1 lk nk = none := by
  unfold insertTp
  cases hb : lookupA lk2 st.1 with
  | none => exact h
  | some bucket =>
    by_cases hk : (lookupA (normName tp.name) bucket).isSome
    · simp [hk, h]
    · simp only [hk, Bool.false_eq_true, if_false]
      by_cases hlk : lk = lk2
      · subst hlk
        rcases hcase with hc | hc
        · exact absurd rfl hc
        · unfold lookup2 at h ⊢
          rw [hb] at h
          rw [lookupA_setA_self]
          simp only [Option.some_bind] at h ⊢
          rw [lookupA_append, h]
          simp [lookupA, Ne.symm hc]
      · unfold lookup2 at h ⊢
        rw [lookupA_setA_ne lk2 lk _ hlk]
        exact h

/-- Inserting preserves the presence of any landscape bucket. -/
lemma insertTp_bucket_mono (lk2 : Str) (st : Db × Nat) (tp : Tp) (lk : Str)
    (h : (lookupA lk st.1).isSome) : (lookupA lk (insertTp lk2 st tp).1).isSome := by
  unfold insertTp
  cases hb : lookupA lk2 st.1 with
  | none => exact h
  | some bucket =>
    by_cases hk : (lookupA (normName tp.name) bucket).isSome
    · simpa [hk] using h
    · simp only [hk, Bool.false_eq_true, if_false]
      by_cases hlk : lk = lk2
      · subst hlk
        rw [lookupA_setA_self]
        rfl
      · rw [lookupA_setA_ne lk2 lk _ hlk]
        exact h

/-- After inserting a turnpoint into an existing bucket, its key is bound. -/
lemma insertTp_self (lk : Str) (st : Db × Nat) (tp : Tp)
    (h : (lookupA lk st.1).isSome) :
    (lookup2 (insertTp lk st tp).1 lk (normName tp.name)).isSome := by
  unfold insertTp
  cases hb : lookupA lk st.1 with
  | none => simp [hb] at h
  | some bucket =>
    by_cases hk : (lookupA (normName tp.name) bucket).isSome
    · simp only [hk, if_true]
      simpa [lookup2, hb] using hk
    · simp only [hk, Bool.false_eq_true, if_false]
      unfold lookup2
      rw [lookupA_setA_self]
      simp only [Option.some_bind]
      rw [lookupA_append]
      cases hx : lookupA (normName tp.name) bucket with
      | some v => simp [hx] at hk
      | none => simp [lookupA]

/-- Folding insertions never overwrites an existing binding. -/
lemma foldl_insertTp_preserves (lk2 : Str) :
    ∀ (tps : List Tp) (st : Db × Nat) (lk nk : Str) (e : Entry),
      lookup2 st.1 lk nk = some e →
      lookup2 (tps.foldl (insertTp lk2) st).1 lk nk = some e := by
  intro tps
  induction tps with
  | nil => intro st lk nk e h; exact h
  | cons tp rest ih =>
    intro st lk nk e h
    exact ih _ _ _ _ (insertTp_preserves lk2 st tp lk nk e h)

/-- Folding insertions preserves bucket presence. -/
lemma foldl_insertTp_bucket (lk2 : Str) :
    ∀ (tps : List Tp) (st : Db × Nat) (lk : Str),
      (lookupA lk st.1).isSome →
      (lookupA lk (tps.foldl (insertTp lk2) st).1).isSome := by
  intro tps
  induction tps with
  | nil => intro st lk h; exact h
  | cons tp rest ih =>
    intro st lk h
    exact ih _ _ (insertTp_bucket_mono lk2 st tp lk h)

/-- isSome form of binding preservation under insertion folds. -/
lemma foldl_insertTp_some (lk2 : Str) (tps : List Tp) (st : Db × Nat) (lk nk : Str)
    (h : (lookup2 st.1 lk nk).isSome) :
    (lookup2 (tps.foldl (insertTp lk2) st).1 lk nk).isSome := by
  cases he : lookup2 st.1 lk nk with
  | none => rw [he] at h; simp at h
  | some e => rw [foldl_insertTp_preserves lk2 tps st lk nk e he]; rfl

/-- `loadFile` never overwrites an existing binding. -/
lemma loadFile_preserves (f : DirFile) (st : Db × Nat) (lk nk : Str) (e : Entry)
    (h : lookup2 st.1 lk nk = some e) : lookup2 (loadFile st f).1 lk nk = some e := by
  unfold loadFile
  by_cases hs : endsWithFpl f.name = false
  · simp [hs, h]
  · simp only [hs, Bool.false_eq_true, if_false]
    cases hl : f.landscape with
    | none => exact h
    | some l =>
      by_cases hemp : l = []
      · simp [hemp, h]
      · simp only [hemp, if_false]
        apply foldl_insertTp_preserves
        by_cases hbk : (lookupA (normLandscape l) st.1).isSome
        · simpa [hbk] using h
        · simp only [hbk, Bool.false_eq_true, if_false]
          by_cases hlk : lk = normLandscape l
          · subst hlk
            unfold lookup2 at h
            cases hx : lookupA (normLandscape l) st.1 with
            | none => rw [hx] at h; simp at h
            | some b => rw [hx] at hbk; simp at hbk
          · unfold lookup2 at h ⊢
            rw [lookupA_setA_ne _ _ _ hlk]
            exact h

/-- `loadFile` preserves bucket presence. -/
lemma loadFile_bucket_mono (f : DirFile) (st : Db × Nat) (lk : Str)
    (h : (lookupA lk st.1).isSome) : (lookupA lk (loadFile st f).1).isSome := by
  unfold loadFile
  by_cases hs : endsWithFpl f.name = false
  · simp [hs, h]
  · simp only [hs, Bool.false_eq_true, if_false]
    cases hl : f.landscape with
    | none => exact h
    | some l =>
      by_cases hemp : l = []
      · simp [hemp, h]
      · simp only [hemp, if_false]
        apply foldl_insertTp_bucket
        by_cases hbk : (lookupA (normLandscape l) st.1).isSome
        · simpa [hbk] using h
        · simp only [hbk, Bool.false_eq_true, if_false]
          by_cases hlk : lk = normLandscape l
          · subst hlk
            rw [lookupA_setA_self]
            rfl
          · rw [lookupA_setA_ne _ _ _ hlk]
            exact h

/-- isSome form of binding preservation under `loadFile`. -/
lemma loadFile_some_mono (f : DirFile) (st : Db × Nat) (lk nk : Str)
    (h : (lookup2 st.1 lk nk).isSome) : (lookup2 (loadFile st f).1 lk nk).isSome := by
  cases he : lookup2 st.1 lk nk with
  | none => rw [he] at h; simp at h
  | some e => rw [loadFile_preserves f st lk nk e he]; rfl

/-- Insertions into other landscapes or under other names never create the
binding (lk, nk). -/
lemma foldl_insertTp_none (lk2 : Str) :
    ∀ (tps : List Tp) (st : Db × Nat) (lk nk : Str),
      (∀ tp ∈ tps, lk ≠ lk2 ∨ normName tp.name ≠ nk) →
      lookup2 st.1 lk nk = none →
      lookup2 (tps.foldl (insertTp lk2) st).1 lk nk = none := by
  intro tps
  induction tps with
  | nil => intro st lk nk hall h; exact h
  | cons tp rest ih =>
    intro st lk nk hall h
    exact ih _ _ _ (fun tp2 hm => hall tp2 (List.mem_cons_of_mem tp hm))
      (insertTp_none_preserve lk2 st tp lk nk (hall tp (List.mem_cons_self tp rest)) h)

/-- A processed file that does not define (lk, nk) leaves an absent binding
absent. -/
lemma loadFile_none_preserve (f : DirFile) (st : Db × Nat) (lk nk : Str)
    (hnd : ¬ fileDefines f lk nk) (h : lookup2 st.1 lk nk = none) :
    lookup2 (loadFile st f).1 lk nk = none := by
  unfold loadFile
  by_cases hs : endsWithFpl f.name = false
  · simp [hs, h]
  · simp only [hs, Bool.false_eq_true, if_false]
    cases hl : f.landscape with
    | none => exact h
    | some l =>
      by_cases hemp : l = []
      · simp [hemp, h]
      · simp only [hemp, if_false]
        have hvalid : endsWithFpl f.name = true := by
          revert hs; cases endsWithFpl f.name <;> simp
        have hcase : normLandscape l ≠ lk ∨ nk ∉ f.tps.map (fun tp => normName tp.name) := by
          by_contra hc
          push_neg at hc
          exact hnd ⟨hvalid, l, hl, hemp, hc.1, hc.2⟩
        have hall : ∀ tp ∈ f.tps, lk ≠ normLandscape l ∨ normName tp.name ≠ nk := by
          intro tp hm
          rcases hcase with hc | hc
          · exact Or.inl (fun hx => hc hx.symm)
          · refine Or.inr (fun hx => hc ?_)
            rw [← hx]
            exact List.mem_map_of_mem _ hm
        apply foldl_insertTp_none (normLandscape l) f.tps _ lk nk hall
        by_cases hbk : (lookupA (normLandscape l) st.1).isSome
        · simpa [hbk] using h
        · simp only [hbk, Bool.false_eq_true, if_false]
          by_cases hlk : lk = normLandscape l
          · subst hlk
            unfold lookup2
            rw [lookupA_setA_self]
            simp [lookupA]
          · unfold lookup2 at h ⊢
            rw [lookupA_setA_ne _ _ _ hlk]
            exact h

/-- Folding insertions into an existing bucket binds nk to the first
turnpoint with that normalised name. -/
lemma foldl_insertTp_define (lk2 : Str) :
    ∀ (tps : List Tp) (st : Db × Nat) (nk : Str) (e : Entry),
      (lookupA lk2 st.1).isSome →
      lookup2 st.1 lk2 nk = none →
      (tps.find? (fun tp => normName tp.name == nk)).map tpEntry = some e →
      lookup2 (tps.foldl (insertTp lk2) st).1 lk2 nk = some e := by
  intro tps
  induction tps with
  | nil => intro st nk e hbk hnone hfind; simp [List.find?] at hfind
  | cons tp rest ih =>
    intro st nk e hbk hnone hfind
    by_cases hmatch : (normName tp.name == nk) = true
    · have hnk : normName tp.name = nk := by simpa using hmatch
      simp only [List.find?, hmatch, Option.map_some', Option.some.injEq] at hfind
      subst hfind
      rw [List.foldl_cons]
      apply foldl_insertTp_preserves
      cases hx : lookupA lk2 st.1 with
      | none => rw [hx] at hbk; simp at hbk
      | some bucket =>
        have hnkb : lookupA nk bucket = none := by
          unfold lookup2 at hnone
          rw [hx] at hnone
          simpa using hnone
        unfold insertTp
        rw [hx]
        have hns : (lookupA (normName tp.name) bucket).isSome = false := by
          rw [hnk, hnkb]
          rfl
        simp only [hns, Bool.false_eq_true, if_false]
        unfold lookup2
        rw [lookupA_setA_self]
        simp only [Option.some_bind]
        rw [lookupA_append, hnkb, hnk]
        simp [lookupA]
    · have hmF : (normName tp.name == nk) = false := by
        revert hmatch; cases (normName tp.name == nk) <;> simp
      simp only [List.find?, hmF] at hfind
      have hne : normName tp.name ≠ nk := by simpa using hmF
      exact ih _ _ _ (insertTp_bucket_mono lk2 st tp lk2 hbk)
        (insertTp_none_preserve lk2 st tp lk2 nk (Or.inr hne) hnone) hfind

/-- Inserting a turnpoint whose key is already bound is a no-op. -/
lemma insertTp_noop (lk2 : Str) (st : Db × Nat) (tp : Tp)
    (h : (lookup2 st.1 lk2 (normName tp.name)).isSome) : insertTp lk2 st tp = st := by
  unfold insertTp
  cases hx : lookupA lk2 st.1 with
  | none => rfl
  | some bucket =>
    have hk : (lookupA (normName tp.name) bucket).isSome = true := by
      unfold lookup2 at h
      rw [hx] at h
      simpa using h
    simp [hk]

/-- Folding insertions whose keys are all bound is a no-op. -/
lemma foldl_insertTp_noop (lk2 : Str) :
    ∀ (tps : List Tp) (st : Db × Nat),
      (∀ tp ∈ tps, (lookup2 st.1 lk2 (normName tp.name)).isSome) →
      tps.foldl (insertTp lk2) st = st := by
  intro tps
  induction tps with
  | nil => intro st hall; rfl
  | cons tp rest ih =>
    intro st hall
    rw [List.foldl_cons, insertTp_noop lk2 st tp (hall tp (List.mem_cons_self tp rest))]
    exact ih st (fun tp2 hm => hall tp2 (List.mem_cons_of_mem tp hm))

/-- After folding insertions, every inserted key is bound. -/
lemma foldl_insertTp_present (lk2 : Str) :
    ∀ (tps : List Tp) (st : Db × Nat),
      (lookupA lk2 st.1).isSome →
      ∀ tp ∈ tps, (lookup2 (tps.foldl (insertTp lk2) st).1 lk2 (normName tp.name)).isSome := by
  intro tps
  induction tps with
  | nil => intro st hbk tp hm; exact absurd hm (by simp)
  | cons tp rest ih =>
    intro st hbk tp2 hm
    rcases List.mem_cons.mp hm with hm2 | hm2
    · subst hm2
      rw [List.foldl_cons]
      exact foldl_insertTp_some lk2 rest _ _ _ (insertTp_self lk2 st tp2 hbk)
    · rw [List.foldl_cons]
      exact ih _ (insertTp_bucket_mono lk2 st tp lk2 hbk) tp2 hm2

/-- Processing a file that defines (lk, nk), while the binding is absent,
binds it to the file's first turnpoint with that normalised name. -/
lemma loadFile_defines (f : DirFile) (st : Db × Nat) (lk nk : Str) (e : Entry)
    (hd : fileDefines f lk nk) (hfe : fileEntry f nk = some e)
    (h : lookup2 st.1 lk nk = none) :
    lookup2 (loadFile st f).1 lk nk = some e := by
  obtain ⟨hvalid, l, hl, hemp, hlk, hmem⟩ := hd
  subst hlk
  unfold loadFile
  rw [hvalid]
  simp only [Bool.true_eq_false, if_false]
  rw [hl]
  simp only [hemp, if_false]
  apply foldl_insertTp_define
  · by_cases hbk : (lookupA (normLandscape l) st.1).isSome
    · simpa [hbk] using hbk
    · simp only [hbk, Bool.false_eq_true, if_false]
      rw [lookupA_setA_self]
      rfl
  · by_cases hbk : (lookupA (normLandscape l) st.1).isSome
    · simpa [hbk] using h
    · simp only [hbk, Bool.false_eq_true, if_false]
      unfold lookup2
      rw [lookupA_setA_self]
      simp [lookupA]
  · exact hfe

/-- A file all of whose turnpoint keys are already bound (and whose bucket
exists) is a complete no-op, including the added-count. -/
lemma loadFile_noop (f : DirFile) (st : Db × Nat)
    (hp : ∀ l, f.landscape = some l → l ≠ [] → endsWithFpl f.name = true →
      (lookupA (normLandscape l) st.1).isSome ∧
      ∀ tp ∈ f.tps, (lookup2 st.1 (normLandscape l) (normName tp.name)).isSome) :
    loadFile st f = st := by
  unfold loadFile
  by_cases hs : endsWithFpl f.name = false
  · simp [hs]
  · simp only [hs, Bool.false_eq_true, if_false]
    have hvalid : endsWithFpl f.name = true := by
      revert hs; cases endsWithFpl f.name <;> simp
    cases hl : f.landscape with
    | none => rfl
    | some l =>
      by_cases hemp : l = []
      · simp [hemp]
      · simp only [hemp, if_false]
        obtain ⟨hbk, htps⟩ := hp l hl hemp hvalid
        simp only [hbk, if_true]
        exact foldl_insertTp_noop _ f.tps st htps

/-- After processing a valid file, its landscape bucket exists and all of
its turnpoint keys are bound. -/
lemma loadFile_present (f : DirFile) (st : Db × Nat) (l : Str)
    (hvalid : endsWithFpl f.name = true) (hl : f.landscape = some l) (hemp : l ≠ []) :
    (lookupA (normLandscape l) (loadFile st f).1).isSome ∧
    ∀ tp ∈ f.tps,
      (lookup2 (loadFile st f).1 (normLandscape l) (normName tp.name)).isSome := by
  unfold loadFile
  rw [hvalid]
  simp only [Bool.true_eq_false, if_false]
  rw [hl]
  simp only [hemp, if_false]
  have hbk : (lookupA (normLandscape l)
      (if (lookupA (normLandscape l) st.1).isSome then st.1
       else setA (normLandscape l) [] st.1)).isSome := by
    by_cases hbk2 : (lookupA (normLandscape l) st.1).isSome
    · simpa [hbk2] using hbk2
    · simp only [hbk2, Bool.false_eq_true, if_false]
      rw [lookupA_setA_self]
      rfl
  exact ⟨foldl_insertTp_bucket _ f.tps _ _ hbk, foldl_insertTp_present _ f.tps _ hbk⟩

/-- Folding file loads never overwrites an existing binding (this is the
first-write-wins guarantee: later duplicates are discarded). -/
lemma loadFiles_preserves :
    ∀ (files : List DirFile) (st : Db × Nat) (lk nk : Str) (e : Entry),
      lookup2 st.1 lk nk = some e →
      lookup2 (files.foldl loadFile st).1 lk nk = some e := by
  intro files
  induction files with
  | nil => intro st lk nk e h; exact h
  | cons f rest ih =>
    intro st lk nk e h
    exact ih _ _ _ _ (loadFile_preserves f st lk nk e h)

/-- isSome form of binding preservation under file folds. -/
lemma loadFiles_some_mono (files : List DirFile) (st : Db × Nat) (lk nk : Str)
    (h : (lookup2 st.1 lk nk).isSome) :
    (lookup2 (files.foldl loadFile st).1 lk nk).isSome := by
  cases he : lookup2 st.1 lk nk with
  | none => rw [he] at h; simp at h
  | some e => rw [loadFiles_preserves files st lk nk e he]; rfl

/-- Bucket presence is preserved under file folds. -/
lemma loadFiles_bucket_mono (files : List DirFile) (st : Db × Nat) (lk : Str)
    (h : (lookupA lk st.1).isSome) :
    (lookupA lk (files.foldl loadFile st).1).isSome := by
  induction files generalizing st with
  | nil => exact h
  | cons f rest ih => exact ih _ (loadFile_bucket_mono f st lk h)

/-- Files that do not define (lk, nk) leave an absent binding absent. -/
lemma loadFiles_none_preserve :
    ∀ (files : List DirFile) (st : Db × Nat) (lk nk : Str),
      (∀ g ∈ files, ¬ fileDefines g lk nk) →
      lookup2 st.1 lk nk = none →
      lookup2 (files.foldl loadFile st).1 lk nk = none := by
  intro files
  induction files with
  | nil => intro st lk nk hall h; exact h
  | cons f rest ih =>
    intro st lk nk hall h
    exact ih _ _ _ (fun g hm => hall g (List.mem_cons_of_mem f hm))
      (loadFile_none_preserve f st lk nk (hall f (List.mem_cons_self f rest)) h)

/-- After folding all files, every valid file's bucket and keys are bound. -/
lemma loadFiles_present :
    ∀ (files : List DirFile) (st : Db × Nat) (f : DirFile), f ∈ files →
      ∀ l, endsWithFpl f.name = true → f.landscape = some l → l ≠ [] →
        (lookupA (normLandscape l) ((files.foldl loadFile st).1)).isSome ∧
        ∀ tp ∈ f.tps,
          (lookup2 (files.foldl loadFile st).1 (normLandscape l) (normName tp.name)).isSome := by
  intro files
  induction files with
  | nil => intro st f hm; exact absurd hm (by simp)
  | cons g rest ih =>
    intro st f hm l hv hl hemp
    rcases List.mem_cons.mp hm with hm2 | hm2
    · subst hm2
      obtain ⟨hbk, htps⟩ := loadFile_present f st l hv hl hemp
      rw [List.foldl_cons]
      exact ⟨loadFiles_bucket_mono rest _ _ hbk,
        fun tp hmem => loadFiles_some_mono rest _ _ _ (htps tp hmem)⟩
    · rw [List.foldl_cons]
      exact ih _ f hm2 l hv hl hemp

/-- Folding files whose buckets and keys are all bound is a no-op. -/
lemma loadFiles_noop :
    ∀ (files : List DirFile) (st : Db × Nat),
      (∀ f ∈ files, ∀ l, f.landscape = some l → l ≠ [] → endsWithFpl f.name = true →
        (lookupA (normLandscape l) st.1).isSome ∧
        ∀ tp ∈ f.tps, (lookup2 st.1 (normLandscape l) (normName tp.name)).isSome) →
      files.foldl loadFile st = st := by
  intro files
  induction files with
  | nil => intro st hall; rfl
  | cons f rest ih =>
    intro st hall
    rw [List.foldl_cons, loadFile_noop f st (hall f (List.mem_cons_self f rest))]
    exact ih st (fun g hm => hall g (List.mem_cons_of_mem f hm))

/-- Claim C5: index load is idempotent — re-loading the same directory adds
0 turnpoints, leaves the database identical, and leaves every resolution
unchanged — and first-write-wins: once (lk, nk) is bound to an entry,
folding any further files preserves the binding (later duplicates are
silently discarded) and resolve keeps returning the first entry's
coordinates. -/
theorem load_idempotent_first_wins (db0 : Db) (dir : List DirFile) :
    (load_fpl_dir (load_fpl_dir db0 (some dir)).1 (some dir) =
      ((load_fpl_dir db0 (some dir)).1, 0)) ∧
    (∀ L N, resolve (load_fpl_dir (load_fpl_dir db0 (some dir)).1 (some dir)).1 L N =
      resolve (load_fpl_dir db0 (some dir)).1 L N) ∧
    (∀ (db : Db) (n : Nat) (files : List DirFile) (lk nk : Str) (e : Entry),
      lookup2 db lk nk = some e →
        lookup2 (files.foldl loadFile (db, n)).1 lk nk = some e ∧
        ∀ L N, normLandscape L = lk → normName N = nk →
          resolve (files.foldl loadFile (db, n)).1 L N = some e.2) := by
  have hidem : load_fpl_dir (load_fpl_dir db0 (some dir)).1 (some dir) =
      ((load_fpl_dir db0 (some dir)).1, 0) := by
    show (sortByName dir).foldl loadFile ((load_fpl_dir db0 (some dir)).1, 0) = _
    apply loadFiles_noop
    intro f hf l hl hemp hv
    exact loadFiles_present (sortByName dir) (db0, 0) f hf l hv hl hemp
  refine ⟨hidem, ?_, ?_⟩
  · intro L N
    rw [hidem]
  · intro db n files lk nk e h
    have hpres := loadFiles_preserves files (db, n) lk nk e h
    refine ⟨hpres, ?_⟩
    intro L N hL hN
    unfold lookup2 at hpres
    cases hb : lookupA lk (files.foldl loadFile (db, n)).1 with
    | none => rw [hb] at hpres; simp at hpres
    | some bucket =>
      rw [hb] at hpres
      simp only [Option.some_bind] at hpres
      exact resolveWith_exact (fun nk2 cands => getCloseMatches1 nk2 cands ((3 : Rat) / 4))
        ((files.foldl loadFile (db, n)).1) L N bucket e (by rw [hL]; exact hb)
        (by rw [hN]; exact hpres)

/-- Witness for C5: loading the two-file corpus twice is a no-op, and after
the duplicate-defining second file is folded in, resolution still returns
the first file's coordinates (1,2,3), not (9,9,9). -/
theorem load_idempotent_first_wins_witness :
    (load_fpl_dir (load_fpl_dir [] (some exDir5)).1 (some exDir5) =
      ((load_fpl_dir [] (some exDir5)).1, 0)) ∧
    resolve ([exFile2].foldl loadFile ((loadFile (([], 0) : Db × Nat) exFile1).1, 0)).1
      (("Centro_Italia3").toList) (("RIETI").toList) = some (1, 2, 3) := by
  refine ⟨(load_idempotent_first_wins [] exDir5).1, ?_⟩
  have h3 := (load_idempotent_first_wins [] exDir5).2.2
    ((loadFile (([], 0) : Db × Nat) exFile1).1) 0 [exFile2]
    (("centroitalia3").toList) (("rieti").toList)
    ((("Rieti").toList, (1 : Rat), (2 : Rat), (3 : Rat))) (by decide)
  exact h3.2 (("Centro_Italia3").toList) (("RIETI").toList) (by decide) (by decide)

/-! ### String order lemmas -/

/-- Trichotomy for the embedded Python string order. -/
lemma strLtB_trichotomy : ∀ a b : Str, strLtB a b = true ∨ a = b ∨ strLtB b a = true := by
  intro a
  induction a with
  | nil =>
    intro b
    cases b with
    | nil => exact Or.inr (Or.inl rfl)
    | cons d ds => exact Or.inl rfl
  | cons c cs ih =>
    intro b
    cases b with
    | nil => exact Or.inr (Or.inr rfl)
    | cons d ds =>
      rcases lt_trichotomy c d with h | h | h
      · left
        simp [strLtB, h]
      · subst h
        rcases ih ds with h2 | h2 | h2
        · left
          simp [strLtB, lt_irrefl, h2]
        · subst h2
          exact Or.inr (Or.inl rfl)
        · right; right
          simp [strLtB, lt_irrefl, h2]
      · right; right
        simp [strLtB, h]

/-- Asymmetry of the embedded string order. -/
lemma strLtB_asymm : ∀ a b : Str, strLtB a b = true → strLtB b a = true → False := by
  intro a
  induction a with
  | nil =>
    intro b h1 h2
    cases b with
    | nil => simp [strLtB] at h1
    | cons d ds => simp [strLtB] at h2
  | cons c cs ih =>
    intro b h1 h2
    cases b with
    | nil => simp [strLtB] at h1
    | cons d ds =>
      rcases lt_trichotomy c d with h | h | h
      · rw [show strLtB (d :: ds) (c :: cs) =
          (if d < c then true else if c < d then false else strLtB ds cs) from rfl] at h2
        simp [asymm h, h] at h2
      · subst h
        simp only [strLtB, lt_irrefl, if_false] at h1 h2
        exact ih ds h1 h2
      · rw [show strLtB (c :: cs) (d :: ds) =
          (if c < d then true else if d < c then false else strLtB cs ds) from rfl] at h1
        simp [asymm h, h] at h1

/-- Transitivity of the embedded string order. -/
lemma strLtB_trans : ∀ a b c : Str, strLtB a b = true → strLtB b c = true → strLtB a c = true := by
  intro a
  induction a with
  | nil =>
    intro b c h1 h2
    cases b with
    | nil => simp [strLtB] at h1
    | cons d ds =>
      cases c with
      | nil => simp [strLtB] at h2
      | cons e es => rfl
  | cons x xs ih =>
    intro b c h1 h2
    cases b with
    | nil => simp [strLtB] at h1
    | cons y ys =>
      cases c with
      | nil => simp [strLtB] at h2
      | cons z zs =>
        simp only [strLtB] at h1 h2 ⊢
        rcases lt_trichotomy x y with hxy | hxy | hxy
        · rcases lt_trichotomy y z with hyz | hyz | hyz
          · simp [lt_trans hxy hyz]
          · subst hyz; simp [hxy]
          · rcases lt_trichotomy x z with hxz | hxz | hxz
            · simp [hxz]
            · subst hxz
              rw [if_neg (asymm hyz), if_pos hyz] at h2
              simp at h2
            · rw [if_neg (asymm hyz), if_pos hyz] at h2
              simp at h2
        · subst hxy
          rcases lt_trichotomy x z with hxz | hxz | hxz
          · simp [hxz]
          · subst hxz
            rw [if_neg (lt_irrefl x)] at h1 h2 ⊢
            rw [if_neg (lt_irrefl x)] at h1 h2 ⊢
            exact ih _ _ h1 h2
          · rw [if_neg (asymm hxz)] at h2
            rw [if_neg (lt_irrefl x)] at h1
            rw [if_neg (lt_irrefl x)] at h1
            rcases lt_trichotomy x z with h3 | h3 | h3
            · exact absurd h3 (asymm hxz)
            · exact absurd h3.symm (ne_of_lt hxz)
            · rw [if_pos h3] at h2
              simp at h2
        · rw [if_neg (asymm hxy), if_pos hxy] at h1
          simp at h1

/-- `strLeB` unfolds to strict-or-equal. -/
lemma strLeB_iff (a b : Str) : strLeB a b = true ↔ strLtB a b = true ∨ a = b := by
  simp [strLeB, Bool.or_eq_true, beq_iff_eq]

/-- Totality of the embedded string order. -/
lemma strLeB_total (a b : Str) : strLeB a b = true ∨ strLeB b a = true := by
  rcases strLtB_trichotomy a b with h | h | h
  · exact Or.inl ((strLeB_iff a b).mpr (Or.inl h))
  · exact Or.inl ((strLeB_iff a b).mpr (Or.inr h))
  · exact Or.inr ((strLeB_iff b a).mpr (Or.inl h))

/-- Antisymmetry of the embedded string order. -/
lemma strLeB_antisymm (a b : Str) (h1 : strLeB a b = true) (h2 : strLeB b a = true) :
    a = b := by
  rcases (strLeB_iff a b).mp h1 with ha | ha
  · rcases (strLeB_iff b a).mp h2 with hb | hb
    · exact absurd (strLtB_asymm a b ha hb) not_false
    · exact hb.symm
  · exact ha

/-- Transitivity of the embedded non-strict string order. -/
lemma strLeB_trans (a b c : Str) (h1 : strLeB a b = true) (h2 : strLeB b c = true) :
    strLeB a c = true := by
  rcases (strLeB_iff a b).mp h1 with ha | ha
  · rcases (strLeB_iff b c).mp h2 with hb | hb
    · exact (strLeB_iff a c).mpr (Or.inl (strLtB_trans a b c ha hb))
    · subst hb; exact h1
  · subst ha; exact h2

/-! ### Sorting lemmas -/

/-- Insertion produces a permutation. -/
lemma insertByName_perm (f : DirFile) : ∀ l : List DirFile, (insertByName f l).Perm (f :: l) := by
  intro l
  induction l with
  | nil => simp [insertByName]
  | cons g gs ih =>
    unfold insertByName
    by_cases h : strLeB f.name g.name = true
    · simp [h]
    · simp only [h, if_false]
      exact (List.Perm.cons g ih).trans (List.Perm.swap f g gs)

/-- Sorting produces a permutation. -/
lemma sortByName_perm : ∀ l : List DirFile, (sortByName l).Perm l := by
  intro l
  induction l with
  | nil => simp [sortByName]
  | cons f fs ih =>
    exact (insertByName_perm f (sortByName fs)).trans (List.Perm.cons f ih)

/-- Insertion preserves sortedness by filename. -/
lemma insertByName_sorted (f : DirFile) :
    ∀ l : List DirFile, l.Pairwise (fun a b => strLeB a.name b.name = true) →
      (insertByName f l).Pairwise (fun a b => strLeB a.name b.name = true) := by
  intro l
  induction l with
  | nil => intro h; simp [insertByName]
  | cons g gs ih =>
    intro h
    rcases List.pairwise_cons.mp h with ⟨hg, hgs⟩
    unfold insertByName
    by_cases hle : strLeB f.name g.name = true
    · simp only [hle, if_true]
      refine List.pairwise_cons.mpr ⟨?_, h⟩
      intro b hb
      rcases List.mem_cons.mp hb with hb2 | hb2
      · subst hb2; exact hle
      · exact strLeB_trans _ _ _ hle (hg b hb2)
    · simp only [hle, if_false]
      refine List.pairwise_cons.mpr ⟨?_, ih hgs⟩
      intro b hb
      have hb2 : b = f ∨ b ∈ gs := by
        have := (insertByName_perm f gs).mem_iff.mp hb
        simpa using this
      rcases hb2 with hb3 | hb3
      · rw [hb3]
        rcases strLeB_total f.name g.name with hx | hx
        · exact absurd hx hle
        · exact hx
      · exact hg b hb3

/-- The sort is sorted by filename. -/
lemma sortByName_sorted : ∀ l : List DirFile,
    (sortByName l).Pairwise (fun a b => strLeB a.name b.name = true) := by
  intro l
  induction l with
  | nil => simp [sortByName]
  | cons f fs ih => exact insertByName_sorted f (sortByName fs) ih

/-- Strict name order is (vacuously) antisymmetric. -/
instance : IsAntisymm DirFile (fun a b => strLtB a.name b.name = true) :=
  ⟨fun a b h1 h2 => (strLtB_asymm _ _ h1 h2).elim⟩

/-- A name-sorted list with pairwise-distinct names is strictly sorted. -/
lemma sorted_strict (l : List DirFile)
    (hs : l.Pairwise (fun a b => strLeB a.name b.name = true))
    (hd : l.Pairwise (fun a b => a.name ≠ b.name)) :
    l.Pairwise (fun a b => strLtB a.name b.name = true) := by
  refine (hs.and hd).imp ?_
  intro a b hab
  rcases (strLeB_iff _ _).mp hab.1 with h | h
  · exact h
  · exact absurd h hab.2

/-- With pairwise-distinct filenames, sorting is invariant under
permutation of the directory listing. -/
lemma sortByName_eq_of_perm (l1 l2 : List DirFile) (hp : l1.Perm l2)
    (hd : l1.Pairwise (fun a b => a.name ≠ b.name)) :
    sortByName l1 = sortByName l2 := by
  have hsymm : ∀ {x y : DirFile}, x.name ≠ y.name → y.name ≠ x.name :=
    fun h => Ne.symm h
  have hd1 : (sortByName l1).Pairwise (fun a b => a.name ≠ b.name) :=
    ((sortByName_perm l1).pairwise_iff hsymm).mpr hd
  have hd2 : (sortByName l2).Pairwise (fun a b => a.name ≠ b.name) :=
    ((sortByName_perm l2).pairwise_iff hsymm).mpr
      ((hp.pairwise_iff hsymm).mp hd)
  have hperm : (sortByName l1).Perm (sortByName l2) :=
    ((sortByName_perm l1).trans hp).trans (sortByName_perm l2).symm
  exact List.eq_of_perm_of_sorted hperm
    (sorted_strict _ (sortByName_sorted l1) hd1)
    (sorted_strict _ (sortByName_sorted l2) hd2)

/-- Folding a file list that splits into non-definers, a definer, and
arbitrary later files binds (lk, nk) to the definer's first entry. -/
lemma loadFiles_split_define (u v : List DirFile) (f : DirFile) (st : Db × Nat)
    (lk nk : Str) (e : Entry)
    (hu : ∀ g ∈ u, ¬ fileDefines g lk nk) (hf : fileDefines f lk nk)
    (hfe : fileEntry f nk = some e) (h0 : lookup2 st.1 lk nk = none) :
    lookup2 ((u ++ f :: v).foldl loadFile st).1 lk nk = some e := by
  rw [List.foldl_append, List.foldl_cons]
  apply loadFiles_preserves
  apply loadFile_defines f _ lk nk e hf hfe
  exact loadFiles_none_preserve u st lk nk hu h0

/-- Claim C9: `load_fpl_dir` visits the files in sorted filename order, so
(with the pairwise-distinct filenames a real directory guarantees) the index
is independent of the listing order, and when several files define the same
(normalised landscape, normalised name) key, the entry of the file with the
lexicographically smallest filename wins. -/
theorem load_sorted_order (db0 : Db) (files files2 : List DirFile)
    (hd : files.Pairwise (fun a b => a.name ≠ b.name)) :
    (files.Perm files2 → load_fpl_dir db0 (some files2) = load_fpl_dir db0 (some files)) ∧
    (∀ (f : DirFile) (lk nk : Str) (e : Entry), f ∈ files →
      fileDefines f lk nk → fileEntry f nk = some e →
      (∀ g ∈ files, fileDefines g lk nk → strLeB f.name g.name = true) →
      lookup2 db0 lk nk = none →
      lookup2 (load_fpl_dir db0 (some files)).1 lk nk = some e) := by
  constructor
  · intro hp
    show (sortByName files2).foldl loadFile (db0, 0) =
      (sortByName files).foldl loadFile (db0, 0)
    rw [sortByName_eq_of_perm files2 files hp.symm
      ((hp.pairwise_iff (fun h => Ne.symm h)).mp hd)]
  · intro f lk nk e hmem hdef hfe hmin h0
    show lookup2 ((sortByName files).foldl loadFile (db0, 0)).1 lk nk = some e
    have hmemS : f ∈ sortByName files := ((sortByName_perm files).mem_iff).mpr hmem
    obtain ⟨u, v, hsplit⟩ := List.append_of_mem hmemS
    have hsorted := sortByName_sorted files
    have hdS : (sortByName files).Pairwise (fun a b => a.name ≠ b.name) :=
      ((sortByName_perm files).pairwise_iff (fun h => Ne.symm h)).mpr hd
    rw [hsplit] at hsorted hdS
    rw [hsplit]
    apply loadFiles_split_define u v f _ lk nk e ?_ hdef hfe h0
    intro g hg hgdef
    have hcross1 := (List.pairwise_append.mp hsorted).2.2 g hg f (List.mem_cons_self f v)
    have hcross2 := (List.pairwise_append.mp hdS).2.2 g hg f (List.mem_cons_self f v)
    have hgfiles : g ∈ files := by
      have : g ∈ sortByName files := by
        rw [hsplit]
        exact List.mem_append.mpr (Or.inl hg)
      exact ((sortByName_perm files).mem_iff).mp this
    exact hcross2 (strLeB_antisymm _ _ hcross1 (hmin g hgfiles hgdef))

/-- Witness for C9: the two-file corpus loaded from a differently-ordered
listing gives the same index, and the lexicographically smaller filename
(a.fpl) wins the duplicate key. -/
theorem load_sorted_order_witness :
    (load_fpl_dir [] (some [exFile2, exFile1]) = load_fpl_dir [] (some exDir5)) ∧
    lookup2 (load_fpl_dir [] (some exDir5)).1 (("centroitalia3").toList)
      (("rieti").toList) = some ((("Rieti").toList), 1, 2, 3) := by
  have hd : exDir5.Pairwise (fun a b => a.name ≠ b.name) := by decide
  have h := load_sorted_order [] exDir5 [exFile2, exFile1] hd
  refine ⟨h.1 (List.Perm.swap exFile2 exFile1 []), ?_⟩
  apply h.2 exFile1 (("centroitalia3").toList) (("rieti").toList)
    ((("Rieti").toList), 1, 2, 3)
    (List.mem_cons_self exFile1 [exFile2])
    ⟨by decide, ("Centro_Italia3").toList, rfl, by decide, by decide, by decide⟩
    (by decide) ?_ rfl
  intro g hg hgdef
  have hcases : g = exFile1 ∨ g = exFile2 := by simpa [exDir5] using hg
  rcases hcases with rfl | rfl
  · decide
  · decide

/-! ### Fuzzy-matcher characterisation -/

/-- The best-of fold yields none exactly on the empty list. -/
lemma bestScored_eq_none_iff (l : List (Rat × Str)) : bestScored l = none ↔ l = [] := by
  constructor
  · intro h
    cases l with
    | nil => rfl
    | cons p ps =>
      exfalso
      unfold bestScored at h
      rw [List.foldl_cons] at h
      have haux : ∀ (m : List (Rat × Str)) (q : Rat × Str),
          m.foldl (fun acc p2 =>
            match acc with
            | none => some p2
            | some q2 => if pairGtB p2 q2 then some p2 else some q2) (some q) ≠ none := by
        intro m
        induction m with
        | nil => intro q hq; exact absurd hq (by simp)
        | cons x xs ih =>
          intro q
          rw [List.foldl_cons]
          by_cases hgt : pairGtB x q
          · simp only [hgt, if_true]
            exact ih x
          · simp only [hgt, Bool.false_eq_true, if_false]
            exact ih q
      exact haux ps p h
  · intro h
    subst h
    rfl

/-- The best-of fold returns an element of the list. -/
lemma bestScored_mem : ∀ (l : List (Rat × Str)) (p : Rat × Str),
    bestScored l = some p → p ∈ l := by
  have haux : ∀ (l : List (Rat × Str)) (acc : Option (Rat × Str)) (p : Rat × Str),
      l.foldl (fun acc p2 =>
        match acc with
        | none => some p2
        | some q2 => if pairGtB p2 q2 then some p2 else some q2) acc = some p →
      acc = some p ∨ p ∈ l := by
    intro l
    induction l with
    | nil => intro acc p h; exact Or.inl h
    | cons x xs ih =>
      intro acc p h
      rw [List.foldl_cons] at h
      cases acc with
      | none =>
        rcases ih (some x) p h with h2 | h2
        · right
          simp only [Option.some.injEq] at h2
          exact h2 ▸ List.mem_cons_self x xs
        · exact Or.inr (List.mem_cons_of_mem x h2)
      | some q =>
        by_cases hgt : pairGtB x q
        · simp only [hgt, if_true] at h
          rcases ih (some x) p h with h2 | h2
          · right
            simp only [Option.some.injEq] at h2
            exact h2 ▸ List.mem_cons_self x xs
          · exact Or.inr (List.mem_cons_of_mem x h2)
        · simp only [hgt, Bool.false_eq_true, if_false] at h
          rcases ih (some q) p h with h2 | h2
          · exact Or.inl h2
          · exact Or.inr (List.mem_cons_of_mem x h2)
  intro l p h
  rcases haux l none p h with h2 | h2
  · exact absurd h2 (by simp)
  · exact h2

/-- The fuzzy matcher returns nothing exactly when no candidate reaches the
cutoff. -/
lemma getCloseMatches1_none_iff (w : Str) (poss : List Str) (c : Rat) :
    getCloseMatches1 w poss c = none ↔ ∀ x ∈ poss, smScore x w < c := by
  unfold getCloseMatches1
  rw [Option.map_eq_none', bestScored_eq_none_iff, List.filterMap_eq_nil_iff]
  constructor
  · intro h x hx
    have := h x hx
    by_cases hc : c ≤ smScore x w
    · simp [hc] at this
    · exact lt_of_not_le hc
  · intro h x hx
    simp [not_le.mpr (h x hx)]

/-- A fuzzy hit is one of the candidates and reaches the cutoff. -/
lemma getCloseMatches1_some (w : Str) (poss : List Str) (c : Rat) (hit : Str)
    (h : getCloseMatches1 w poss c = some hit) :
    hit ∈ poss ∧ c ≤ smScore hit w := by
  unfold getCloseMatches1 at h
  rw [Option.map_eq_some'] at h
  obtain ⟨p, hp, hsnd⟩ := h
  have hmem := bestScored_mem _ p hp
  rw [List.mem_filterMap] at hmem
  obtain ⟨x, hx, hfx⟩ := hmem
  by_cases hc : c ≤ smScore x w
  · simp only [hc, if_true, Option.some.injEq] at hfx
    subst hfx
    subst hsnd
    exact ⟨hx, hc⟩
  · simp [hc] at hfx

/-- A bound key is among the bucket's key list. -/
lemma lookupA_some_mem_keys {β : Type} : ∀ (l : List (Str × β)) (k : Str) (v : β),
    lookupA k l = some v → k ∈ l.map Prod.fst := by
  intro l
  induction l with
  | nil => intro k v h; simp [lookupA] at h
  | cons p rest ih =>
    intro k v h
    unfold lookupA at h
    by_cases hk : k = p.1
    · rw [List.map_cons, hk]
      exact List.mem_cons_self p.1 (rest.map Prod.fst)
    · simp only [hk, if_false] at h
      simp only [List.map_cons, List.mem_cons]
      exact Or.inr (ih k v h)

/-- A key in the bucket's key list is bound. -/
lemma mem_keys_lookupA {β : Type} : ∀ (l : List (Str × β)) (k : Str),
    k ∈ l.map Prod.fst → (lookupA k l).isSome := by
  intro l
  induction l with
  | nil => intro k h; simp at h
  | cons p rest ih =>
    intro k h
    unfold lookupA
    by_cases hk : k = p.1
    · simp [hk]
    · simp only [hk, if_false]
      rcases List.mem_cons.mp h with h2 | h2
      · exact absurd h2 hk
      · exact ih k h2

/-! ### Diagonal ratio lemmas -/

/-- Occurrence positions are within range. -/
lemma positions_mem_bounds (c : Char) : ∀ (l : List Char) (base j : Nat),
    j ∈ positions c l base → base ≤ j ∧ j < base + l.length := by
  intro l
  induction l with
  | nil => intro base j h; simp [positions] at h
  | cons x xs ih =>
    intro base j h
    unfold positions at h
    by_cases hx : x = c
    · simp only [hx, if_true] at h
      rcases List.mem_cons.mp h with h2 | h2
      · subst h2
        simp
      · have := ih (base + 1) j h2
        constructor
        · omega
        · simpa [Nat.add_comm, Nat.add_assoc, Nat.add_left_comm] using this.2
    · simp only [hx, if_false] at h
      have := ih (base + 1) j h
      constructor
      · omega
      · simp only [List.length_cons]
        omega

/-- Occurrence positions are strictly increasing. -/
lemma positions_sorted (c : Char) : ∀ (l : List Char) (base : Nat),
    (positions c l base).Pairwise (· < ·) := by
  intro l
  induction l with
  | nil => intro base; simp [positions]
  | cons x xs ih =>
    intro base
    unfold positions
    by_cases hx : x = c
    · simp only [hx, if_true]
      refine List.pairwise_cons.mpr ⟨?_, ih (base + 1)⟩
      intro j hj
      have := positions_mem_bounds c xs (base + 1) j hj
      omega
    · simp only [hx, if_false]
      exact ih (base + 1)

/-- Every index occurs among the positions of its own character. -/
lemma positions_self_mem : ∀ (l : List Char) (j base : Nat), j < l.length →
    (base + j) ∈ positions (l.getD j defCh) l base := by
  intro l
  induction l with
  | nil => intro j base h; simp at h
  | cons x xs ih =>
    intro j base h
    cases j with
    | zero =>
      simp only [List.getD, Nat.add_zero]
      unfold positions
      simp
    | succ j2 =>
      have h2 : j2 < xs.length := by simpa using h
      have := ih j2 (base + 1) h2
      have hget : (x :: xs).getD (j2 + 1) defCh = xs.getD j2 defCh := rfl
      rw [hget]
      unfold positions
      by_cases hx : x = xs.getD j2 defCh
      · simp only [hx, if_true]
        refine List.mem_cons.mpr (Or.inr ?_)
        have harith : base + 1 + j2 = base + (j2 + 1) := by omega
        rw [harith] at this
        exact this
      · simp only [hx, if_false]
        have harith : base + 1 + j2 = base + (j2 + 1) := by omega
        rw [harith] at this
        exact this

/-- Full-window row positions: the filter is the identity. -/
lemma rowJs_full (s : Str) (i : Nat) :
    rowJs s s 0 s.length i = positions (s.getD i defCh) s 0 := by
  unfold rowJs
  rw [List.filter_eq_self]
  intro j hj
  have := positions_mem_bounds (s.getD i defCh) s 0 j hj
  simp only [Bool.and_eq_true, decide_eq_true_eq]
  omega

/-- Row-step unfolding of the inner loop in terms of `kfun`. -/
lemma flmRowJs_cons (prev : List (Nat × Nat)) (i j : Nat) (js : List Nat)
    (nw : List (Nat × Nat)) (bi bj bs : Nat) :
    flmRowJs prev i (j :: js) (nw, (bi, bj, bs)) =
      flmRowJs prev i js ((j, kfun prev j) :: nw,
        if bs < kfun prev j then (i + 1 - kfun prev j, j + 1 - kfun prev j, kfun prev j)
        else (bi, bj, bs)) := rfl

/-- The inner loop is a fold: it distributes over append. -/
lemma flmRowJs_append (prev : List (Nat × Nat)) (i : Nat) :
    ∀ (u v : List Nat) (st : List (Nat × Nat) × (Nat × Nat × Nat)),
      flmRowJs prev i (u ++ v) st = flmRowJs prev i v (flmRowJs prev i u st) := by
  intro u
  induction u with
  | nil => intro v st; rfl
  | cons j js ih =>
    intro v st
    obtain ⟨nw, bi, bj, bs⟩ := st
    rw [List.cons_append, flmRowJs_cons, flmRowJs_cons, ih]

/-- If no scanned position can beat the current best size, the best block is
unchanged. -/
lemma flmRowJs_stay (prev : List (Nat × Nat)) (i : Nat) :
    ∀ (js : List Nat) (nw : List (Nat × Nat)) (bi bj bs : Nat),
      (∀ j ∈ js, kfun prev j ≤ bs) →
      (flmRowJs prev i js (nw, (bi, bj, bs))).2 = (bi, bj, bs) := by
  intro js
  induction js with
  | nil => intro nw bi bj bs hall; rfl
  | cons j js ih =>
    intro nw bi bj bs hall
    rw [flmRowJs_cons]
    have hle := hall j (List.mem_cons_self j js)
    rw [if_neg (by omega)]
    exact ih _ _ _ _ (fun j2 hm => hall j2 (List.mem_cons_of_mem j hm))

/-- The inner loop records `(j, kfun j)` for every scanned position. -/
lemma flmRowJs_map (prev : List (Nat × Nat)) (i : Nat) :
    ∀ (js : List Nat) (nw : List (Nat × Nat)) (b : Nat × Nat × Nat),
      (flmRowJs prev i js (nw, b)).1 =
        (js.reverse.map (fun j => (j, kfun prev j))) ++ nw := by
  intro js
  induction js with
  | nil => intro nw b; rfl
  | cons j js ih =>
    intro nw b
    obtain ⟨bi, bj, bs⟩ := b
    rw [flmRowJs_cons, ih]
    simp [List.append_assoc]

/-- Processing a sorted row that contains the diagonal position `i`, with
bounds from the previous row, advances the best block to `(0, 0, i + 1)`. -/
lemma flmRowJs_hit (prev : List (Nat × Nat)) (i : Nat) (js : List Nat)
    (hsorted : js.Pairwise (· < ·)) (hmem : i ∈ js)
    (hle1 : ∀ j ∈ js, kfun prev j ≤ j + 1)
    (hle2 : ∀ j ∈ js, kfun prev j ≤ i + 1)
    (hdiag : kfun prev i = i + 1) :
    ∀ nw, (flmRowJs prev i js (nw, (0, 0, i))).2 = (0, 0, i + 1) := by
  obtain ⟨u, v, rfl⟩ := List.append_of_mem hmem
  intro nw
  rw [flmRowJs_append]
  have hu : ∀ j ∈ u, kfun prev j ≤ i := by
    intro j hj
    have hji : j < i :=
      (List.pairwise_append.mp hsorted).2.2 j hj i (List.mem_cons_self i v)
    have := hle1 j (List.mem_append_left _ hj)
    omega
  cases hst : flmRowJs prev i u (nw, (0, 0, i)) with
  | mk nw1 b1 =>
    have hb1 : b1 = (0, 0, i) := by
      have := flmRowJs_stay prev i u nw 0 0 i hu
      rw [hst] at this
      exact this
    subst hb1
    rw [flmRowJs_cons, hdiag, if_pos (by omega)]
    have hsub : i + 1 - (i + 1) = 0 := by omega
    rw [hsub]
    apply flmRowJs_stay
    intro j hj
    exact hle2 j (List.mem_append_right u (List.mem_cons_of_mem i hj))

/-- A row-map lookup either misses (0) or returns the stored pair. -/
lemma lookupD_cases : ∀ (m : List (Nat × Nat)) (x : Nat),
    lookupD m x = 0 ∨ (x, lookupD m x) ∈ m := by
  intro m
  induction m with
  | nil => intro x; exact Or.inl rfl
  | cons p rest ih =>
    intro x
    unfold lookupD
    by_cases hk : p.1 = x
    · right
      rw [if_pos hk, ← hk]
      exact List.mem_cons_self p rest
    · rw [if_neg hk]
      rcases ih x with h | h
      · exact Or.inl h
      · exact Or.inr (List.mem_cons_of_mem p h)

/-- Lookup of a mapped key list returns the generating function's value. -/
lemma lookupD_map (g : Nat → Nat) : ∀ (l : List Nat) (x : Nat), x ∈ l →
    lookupD (l.map (fun j => (j, g j))) x = g x := by
  intro l
  induction l with
  | nil => intro x hx; simp at hx
  | cons y ys ih =>
    intro x hx
    simp only [List.map_cons]
    unfold lookupD
    by_cases hk : y = x
    · rw [if_pos hk, hk]
    · rw [if_neg hk]
      rcases List.mem_cons.mp hx with h | h
      · exact absurd h.symm hk
      · exact ih x h

/-- The row recursion keeps the best block on the diagonal: after processing
rows `i, i+1, ..., n-1` of the self-comparison window, the best block is the
whole string. -/
lemma flmRows_diag_aux (s : Str) :
    ∀ (cnt i : Nat) (m : List (Nat × Nat)),
      i + cnt = s.length →
      (∀ p ∈ m, p.2 ≤ p.1 + 1 ∧ p.2 ≤ i) →
      (1 ≤ i → lookupD m (i - 1) = i) →
      flmRows s s 0 s.length (List.range' i cnt) m (0, 0, i) = (0, 0, s.length) := by
  intro cnt
  induction cnt with
  | zero =>
    intro i m htot hbound hdiagm
    have hi : i = s.length := by omega
    subst hi
    rfl
  | succ cnt ih =>
    intro i m htot hbound hdiagm
    have hin : i < s.length := by omega
    have hkle1 : ∀ j, kfun m j ≤ j + 1 := by
      intro j
      cases j with
      | zero => simp [kfun]
      | succ j2 =>
        unfold kfun
        rw [if_neg (by omega)]
        rcases lookupD_cases m (j2 + 1 - 1) with h | h
        · omega
        · have := hbound _ h
          simp only at this
          omega
    have hkle2 : ∀ j, kfun m j ≤ i + 1 := by
      intro j
      cases j with
      | zero => simp [kfun]
      | succ j2 =>
        unfold kfun
        rw [if_neg (by omega)]
        rcases lookupD_cases m (j2 + 1 - 1) with h | h
        · omega
        · have := hbound _ h
          simp only at this
          omega
    have hkdiag : kfun m i = i + 1 := by
      cases hi : i with
      | zero => simp [kfun]
      | succ i2 =>
        unfold kfun
        rw [if_neg (by omega)]
        have := hdiagm (by omega)
        rw [hi] at this
        simp only [Nat.add_sub_cancel] at this ⊢
        omega
    rw [List.range'_succ, flmRows]
    have hjs : rowJs s s 0 s.length i = positions (s.getD i defCh) s 0 := rowJs_full s i
    have hmem : i ∈ rowJs s s 0 s.length i := by
      rw [hjs]
      have := positions_self_mem s i 0 hin
      simpa using this
    have hsorted : (rowJs s s 0 s.length i).Pairwise (· < ·) := by
      rw [hjs]
      exact positions_sorted _ s 0
    cases hrow : flmRowJs m i (rowJs s s 0 s.length i) ([], (0, 0, i)) with
    | mk nw2 b2 =>
      have hb2 : b2 = (0, 0, i + 1) := by
        have := flmRowJs_hit m i (rowJs s s 0 s.length i) hsorted hmem
          (fun j _ => hkle1 j) (fun j _ => hkle2 j) hkdiag []
        rw [hrow] at this
        exact this
      have hnw2 : nw2 = ((rowJs s s 0 s.length i).reverse.map (fun j => (j, kfun m j))) := by
        have := flmRowJs_map m i (rowJs s s 0 s.length i) [] (0, 0, i)
        rw [hrow] at this
        simpa using this
      subst hb2
      apply ih (i + 1) nw2 (by omega)
      · intro p hp
        rw [hnw2] at hp
        rcases List.mem_map.mp hp with ⟨j, hj, rfl⟩
        exact ⟨hkle1 j, hkle2 j⟩
      · intro _
        rw [hnw2]
        have hmemrev : i ∈ (rowJs s s 0 s.length i).reverse := List.mem_reverse.mpr hmem
        rw [Nat.add_sub_cancel]
        rw [lookupD_map (kfun m) _ i hmemrev]
        exact hkdiag

/-- The left extension loop cannot move past the window start. -/
lemma extendL_stuck (a b : Str) (alo blo fuel bj bs : Nat) :
    extendL a b alo blo fuel (alo, bj, bs) = (alo, bj, bs) := by
  cases fuel with
  | zero => rfl
  | succ f =>
    unfold extendL
    rw [if_neg]
    intro hcon
    exact absurd hcon.1 (lt_irrefl alo)

/-- The right extension loop cannot move past the window end. -/
lemma extendR_stuck (a b : Str) (ahi bhi fuel bi bj bs : Nat) (h : ¬ bi + bs < ahi) :
    extendR a b ahi bhi fuel (bi, bj, bs) = (bi, bj, bs) := by
  cases fuel with
  | zero => rfl
  | succ f =>
    unfold extendR
    rw [if_neg]
    intro hcon
    exact h hcon.1

/-- The self-comparison longest match is the whole string. -/
lemma flmCore_diag (s : Str) : flmCore s s 0 s.length 0 s.length = (0, 0, s.length) := by
  unfold flmCore
  rw [Nat.sub_zero]
  rw [flmRows_diag_aux s s.length 0 [] (by omega) (by intro p hp; simp at hp)
    (by intro h; rfl)]
  rw [extendL_stuck, extendR_stuck _ _ _ _ _ _ _ _ (by omega)]

/-- An empty self-comparison window has no match. -/
lemma flmCore_refl_window (s : Str) (x : Nat) : flmCore s s x x x x = (x, x, 0) := by
  unfold flmCore
  rw [Nat.sub_self]
  rw [show List.range' x 0 = [] from rfl]
  rw [show flmRows s s x x [] [] (x, x, 0) = (x, x, 0) from rfl]
  rw [extendL_stuck, extendR_stuck _ _ _ _ _ _ _ _ (by omega)]

/-- Matching an empty window contributes nothing. -/
lemma matchesAux_refl_window (s : Str) : ∀ (fuel x : Nat),
    matchesAux s s fuel x x x x = 0 := by
  intro fuel x
  cases fuel with
  | zero => rfl
  | succ f => simp [matchesAux, flmCore_refl_window]

/-- The total matched size of a string against itself is its length. -/
lemma smMatches_self (s : Str) : smMatches s s = s.length := by
  cases hn : s.length with
  | zero =>
    have hs : s = [] := List.length_eq_zero.mp hn
    subst hs
    rfl
  | succ n2 =>
    unfold smMatches
    simp only [matchesAux, flmCore_diag]
    rw [if_neg (by omega)]
    rw [Nat.zero_add]
    rw [matchesAux_refl_window, matchesAux_refl_window]
    omega

/-- difflib ratio of a string with itself is 1 (helper closing). -/
lemma smScore_self (s : Str) : smScore s s = 1 := by
  unfold smScore
  by_cases h : s.length + s.length = 0
  · rw [if_pos h]
  · rw [if_neg h, smMatches_self]
    have hne : ((s.length : Rat) + (s.length : Rat)) ≠ 0 := by
      intro h0
      have h1 : ((s.length + s.length : Nat) : Rat) = 0 := by push_cast; linarith
      have h2 := Nat.cast_eq_zero.mp h1
      omega
    rw [div_eq_one_iff_eq hne]
    ring

/-- Claim C6: `resolve` reports not-found exactly when either no bucket
exists for the normalised landscape, or no stored name in the bucket scores
at least the 0.75 similarity cutoff against the normalised requested name
(so a candidate at or above the cutoff may be returned, and when every
stored name is below it the result is not-found). -/
theorem resolve_not_found_iff (db : Db) (L N : Str) :
    resolve db L N = none ↔
      (lookupA (normLandscape L) db = none ∨
        ∃ bucket, lookupA (normLandscape L) db = some bucket ∧
          ∀ key ∈ bucket.map Prod.fst, smScore key (normName N) < (3 : Rat) / 4) := by
  unfold resolve resolveWith
  cases hb : lookupA (normLandscape L) db with
  | none => simp
  | some bucket =>
    simp only
    cases hex : lookupA (normName N) bucket with
    | some e =>
      simp only [hex]
      constructor
      · intro h
        simp at h
      · rintro (h | ⟨bucket2, hb2, hall⟩)
        · simp at h
        · have hbeq : bucket = bucket2 := by injection hb2
          subst hbeq
          have hkey := lookupA_some_mem_keys bucket (normName N) e hex
          have := hall (normName N) hkey
          rw [smScore_self] at this
          norm_num at this
    | none =>
      simp only [hex]
      cases hg : getCloseMatches1 (normName N) (bucket.map Prod.fst) ((3 : Rat) / 4) with
      | none =>
        simp only [hg]
        constructor
        · intro _
          exact Or.inr ⟨bucket, rfl, (getCloseMatches1_none_iff _ _ _).mp hg⟩
        · intro _
          trivial
      | some hit =>
        simp only [hg]
        obtain ⟨hmem, hge⟩ := getCloseMatches1_some _ _ _ _ hg
        have hsome := mem_keys_lookupA bucket hit hmem
        cases hla : lookupA hit bucket with
        | none =>
          rw [hla] at hsome
          simp at hsome
        | some e2 =>
          simp only [hla]
          constructor
          · intro h
            simp at h
          · rintro (h | ⟨bucket2, hb2, hall⟩)
            · simp at h
            · have hbeq : bucket = bucket2 := by injection hb2
              subst hbeq
              exact absurd (hall hit hmem) (not_lt.mpr hge)
